import Mathlib

/-! Xcode build-for-simulator step: scheme resolution and artifact export.

A shallow embedding of `main.go` (package `main`): the scheme to main-target
resolution (`mainTargetOfScheme`), the build-settings lookup
(`buildTargetDirForScheme`), the artifact export (`exportArtifacts`) and the
simulator lookup (`simulatorDestinationID`).

Calls that leave the program (the build-settings queries, the filesystem
probe, the directory copy, the simulator lookups) are fields of a record of
collaborators; every such call is appended to a trace of events, and the
filesystem calls thread an abstract state.
-/

namespace XcodeBuildForSimulator

/-! ## Go standard library: `strings`, `path`, `path/filepath` -/

/-- Go `strings.HasSuffix(s, suffix)`. -/
def hasSuffix (s suffix : String) : Bool :=
  suffix.data.isSuffixOf s.data

/-- Scan for `sub` at every position of the character list. -/
def containsChars (sub : List Char) : List Char → Bool
  | [] => sub.isEmpty
  | c :: cs => sub.isPrefixOf (c :: cs) || containsChars sub cs

/-- Go `strings.Contains(s, substr)`. -/
def contains (s sub : String) : Bool :=
  containsChars sub.data s.data

/-- Go `strings.Index` followed by the two slices around the match: the text
before the first occurrence of `sep` and the text after it, or `none` when
`sep` does not occur. -/
def cutChars (sep : List Char) : List Char → Option (List Char × List Char)
  | [] => if sep.isEmpty then some ([], []) else none
  | c :: cs =>
    if sep.isPrefixOf (c :: cs) then some ([], (c :: cs).drop sep.length)
    else
      match cutChars sep cs with
      | some (a, b) => some (c :: a, b)
      | none => none

/-- The loop of Go `strings.genSplit` for a non-empty separator: cut at the
first occurrence, keep the text before it, go on with the text after it. The
first argument bounds the number of cuts, as `n` does in the Go loop. -/
def splitChars (sep : List Char) : Nat → List Char → List (List Char)
  | 0, s => [s]
  | n + 1, s =>
    match cutChars sep s with
    | none => [s]
    | some (a, b) => a :: splitChars sep n b

/-- Go `strings.Split(s, sep)` for a non-empty separator. The number of
occurrences of `sep` is at most the length of `s`, which bounds the cuts. -/
def split (s sep : String) : List String :=
  (splitChars sep.data s.data.length s.data).map String.mk

/-- The elements of a path between its slashes. -/
def splitSlash : List Char → List (List Char)
  | [] => [[]]
  | c :: cs =>
    if c = '/' then [] :: splitSlash cs
    else
      match splitSlash cs with
      | [] => [[c]]
      | h :: t => (c :: h) :: t

/-- One element of the path seen by `Clean`; the elements kept so far are held
last-first. An empty element and `.` are dropped; `..` removes the last kept
element unless there is none or it is itself `..`, in which case it is kept
on a relative path and dropped on a rooted one. -/
def cleanStep (rooted : Bool) (kept : List (List Char)) (elem : List Char) :
    List (List Char) :=
  if elem = [] ∨ elem = ['.'] then kept
  else if elem = ['.', '.'] then
    match kept with
    | [] => if rooted then [] else [elem]
    | top :: below =>
      if top = ['.', '.'] then elem :: top :: below else below
  else elem :: kept

/-- The elements joined by single slashes. -/
def joinSlash : List (List Char) → List Char
  | [] => []
  | [e] => e
  | e :: es => e ++ '/' :: joinSlash es

/-- Go `path.Clean` on a character list (`filepath.Clean` is the same function
where the separator is the slash): multiple slashes become one, `.` elements
go, an inner `..` goes with the element before it, a `..` that begins a rooted
path goes, and the empty result is `.`. -/
def cleanChars (p : List Char) : List Char :=
  let rooted := p.head? == some '/'
  let kept := (splitSlash p).foldl (cleanStep rooted) []
  if rooted then '/' :: joinSlash kept.reverse
  else if kept.isEmpty then ['.'] else joinSlash kept.reverse

/-- Go `path.Clean`. -/
def Clean (p : String) : String :=
  String.mk (cleanChars p.data)

/-- Go `strings.Join(elems, "/")`. -/
def joinElems : List String → List Char
  | [] => []
  | [e] => e.data
  | e :: es => e.data ++ '/' :: joinElems es

/-- Go `filepath.Join(elem...)`: the leading empty elements are skipped, the
rest is joined with slashes and cleaned; the result is empty when every
element is empty. -/
def Join (elems : List String) : String :=
  match elems.dropWhile (fun e => e.data.isEmpty) with
  | [] => ""
  | rest => String.mk (cleanChars (joinElems rest))

/-- The text up to and including the last slash (the first result of Go
`path.Split`). -/
def dirPart : List Char → List Char
  | [] => []
  | c :: cs =>
    if cs.contains '/' ∨ c = '/' then c :: dirPart cs else []

/-- Go `path.Dir`. -/
def Dir (p : String) : String :=
  String.mk (cleanChars (dirPart p.data))

/-- Go `filepath.Ext` on the reversed path: the suffix that starts at the last
dot of the last element, empty when that element has no dot. -/
def extRev : List Char → List Char → List Char
  | [], _ => []
  | c :: cs, acc =>
    if c = '/' then [] else if c = '.' then '.' :: acc else extRev cs (c :: acc)

/-- Go `filepath.Ext`. -/
def Ext (p : String) : String :=
  String.mk (extRev p.data.reverse [])

/-! ## Data model (`xcodeproj`, `xcscheme`, `serialized`, `simulator`) -/

/-- Product reference of a target (`xcodeproj.ProductReference`). -/
structure ProductReference where
  Path : String
  deriving DecidableEq, Repr

/-- Build target of a project (`xcodeproj.Target`). `Dependencies` holds the
identifiers of the targets this one depends on. -/
structure Target where
  ID : String
  Name : String
  ProductReference : ProductReference
  Dependencies : List String
  deriving DecidableEq, Repr

/-- Reference of a build-action entry to the target it builds
(`xcscheme.BuildableReference`). -/
structure BuildableReference where
  BlueprintIdentifier : String
  BuildableName : String
  ReferencedContainer : String
  deriving DecidableEq, Repr

/-- Modelled from the spec: `IsAppReference` of the scheme library, which is
not part of the sources; an application-type reference is one whose product
ends in the application-bundle suffix. -/
def BuildableReference.IsAppReference (r : BuildableReference) : Bool :=
  hasSuffix r.BuildableName ".app"

/-- Entry of the build action of a scheme (`xcscheme.BuildActionEntry`). -/
structure BuildActionEntry where
  BuildForArchiving : String
  BuildableReference : BuildableReference
  deriving DecidableEq, Repr

/-- Build action of a scheme (`xcscheme.BuildAction`). -/
structure BuildAction where
  BuildActionEntries : List BuildActionEntry
  deriving DecidableEq, Repr

/-- Archive action of a scheme (`xcscheme.ArchiveAction`). -/
structure ArchiveAction where
  BuildConfiguration : String
  deriving DecidableEq, Repr

/-- Scheme of a project or workspace (`xcscheme.Scheme`). -/
structure Scheme where
  Name : String
  BuildAction : BuildAction
  ArchiveAction : ArchiveAction
  deriving DecidableEq, Repr

/-- Target list of a project (`xcodeproj.Proj`). -/
structure Proj where
  Targets : List Target
  deriving DecidableEq, Repr

/-- Opened project (`xcodeproj.XcodeProj`). `Schemes` are the schemes the
project holds. -/
structure XcodeProj where
  Path : String
  Proj : Proj
  Schemes : List Scheme
  deriving DecidableEq, Repr

/-- Modelled from the spec: `proj.Scheme(name)` of the project library, which
is not part of the sources; the lookup of a scheme by name among the schemes
embedded in the project, absent when the project does not know the name. -/
def XcodeProj.Scheme (proj : XcodeProj) (name : String) : Option Scheme :=
  proj.Schemes.find? (fun sch => sch.Name == name)

/-- Modelled from the spec: `xcodeproj.IsXcodeProj`, classification of a
container as a project solely by its path extension. -/
def IsXcodeProj (pth : String) : Bool :=
  Ext pth == ".xcodeproj"

/-- Modelled from the spec: `xcworkspace.IsWorkspace`, classification of a
container as a workspace solely by its path extension. -/
def IsWorkspace (pth : String) : Bool :=
  Ext pth == ".xcworkspace"

/-- Opened workspace (`xcworkspace.Workspace`). -/
structure Workspace where
  Path : String
  deriving DecidableEq, Repr

/-- Flattened build settings (`serialized.Object` restricted to its string
values). -/
abbrev Settings := List (String × String)

/-- Go `serialized.Object.String(key)`: the value, or nothing where the Go
method returns an error (and the empty string). -/
def Settings.String (o : Settings) (key : String) : Option String :=
  (o.find? (fun kv => kv.1 == key)).map Prod.snd

/-- Simulator instance (`simulator.InfoModel`). -/
structure SimulatorInfo where
  ID : String
  Name : String
  deriving DecidableEq, Repr

deriving instance DecidableEq for Except

/-- The calls that leave the program, in the order they are made. -/
inductive Event where
  | targetBuildSettings (target configuration : String) (options : List String)
  | openWorkspace (path : String)
  | schemeBuildSettings (scheme configuration : String) (options : List String)
  | isPathExists (source : String) (found : Bool)
  | copyDir (source destination : String) (ok : Bool)
  | getLatestSimulatorInfoAndVersion (platform device : String)
  | getSimulatorInfo (platformAndVersion device : String)
  deriving DecidableEq, Repr

/-- The errors built by `fmt.Errorf` in `main.go`, one constructor per call
site, with the values the message is formatted from. -/
inductive Failure where
  | schemeNotFound (scheme : String)
  | mainTargetNotFound (scheme : String)
  | fetchTargets (cause : Failure)
  | projectBuildSettings (projectPath cause : String)
  | openWorkspace (projectPath cause : String)
  | workspaceBuildSettings (projectPath cause : String)
  | projectExtension (ext : String)
  | parseBuildSettings
  | targetBuildSettings (cause : String)
  | targetBuildDir (target : String)
  | copyFailed
  | latestSimulatorInfo (cause : String)
  | simulatorInfo (platformAndVersion device cause : String)
  deriving DecidableEq, Repr

/-- The collaborators of `main.go`. The state `σ` is whatever the outside
world consists of (the filesystem, the installed simulators); only the copy
changes it. -/
structure Collaborators (σ : Type) where
  /-- Method `proj.TargetBuildSettings(target, configuration, options...)`. -/
  targetBuildSettings : σ → XcodeProj → String → String → List String → Except String Settings
  /-- Function `xcworkspace.Open(path)`. -/
  openWorkspace : σ → String → Except String Workspace
  /-- Method `workspace.SchemeBuildSettings(scheme, configuration, options...)`. -/
  schemeBuildSettings : σ → Workspace → String → String → List String → Except String Settings
  /-- Function `pathutil.IsPathExists(path)`. -/
  isPathExists : σ → String → Except String Bool
  /-- Run of `util.CopyDir(source, destination)`: the state after it and whether it
  succeeded. -/
  copyDir : σ → String → String → σ × Bool
  /-- Method `target.DependentTargets()`. -/
  dependentTargets : Target → List Target
  /-- Function `simulator.GetLatestSimulatorInfoAndVersion(platform, device)`. -/
  getLatestSimulatorInfoAndVersion : σ → String → String → Except String (SimulatorInfo × String)
  /-- Function `simulator.GetSimulatorInfo(platformAndVersion, device)`. -/
  getSimulatorInfo : σ → String → String → Except String SimulatorInfo

/-- What a function of `main.go` leaves behind: the state of the outside
world, the calls it made, and its return value. -/
structure Run (σ α : Type) where
  state : σ
  trace : List Event
  result : α
  deriving DecidableEq

/-! ## `main.go` -/

def iOSSimName : String := "iphonesimulator"
def tvOSSimName : String := "appletvsimulator"
def watchOSSimName : String := "watchsimulator"

/-- The entry selection of `findBuiltProject` (lines 128-135): the first entry
that is built for archiving and is an application reference; the zero value of
the entry when there is none. -/
def findBuiltProjectArchiveEntry (scheme : Scheme) : BuildActionEntry :=
  match scheme.BuildAction.BuildActionEntries.find?
      (fun entry => !(entry.BuildForArchiving != "YES" || !entry.BuildableReference.IsAppReference)) with
  | some entry => entry
  | none => ⟨"", ⟨"", "", ""⟩⟩

/-- The first loop of `mainTargetOfScheme` (lines 340-346): the blueprint
identifier of the first entry that is an application reference, empty when
there is none. -/
def mainBlueprintIdentifier (sch : Scheme) : String :=
  match sch.BuildAction.BuildActionEntries.find?
      (fun entry => entry.BuildableReference.IsAppReference) with
  | some entry => entry.BuildableReference.BlueprintIdentifier
  | none => ""

/-- `mainTargetOfScheme` return the main target. -/
def mainTargetOfScheme (proj : XcodeProj) (scheme : String) : Except Failure Target :=
  let projTargets := proj.Proj.Targets
  match proj.Scheme scheme with
  | none => .error (.schemeNotFound scheme)
  | some sch =>
    let blueIdent := mainBlueprintIdentifier sch
    match projTargets.find? (fun t => t.ID == blueIdent) with
    | some t => .ok t
    | none => .error (.mainTargetNotFound scheme)

/-- `buildTargetDirForScheme` returns the TARGET_BUILD_DIR for the provided
scheme. -/
def buildTargetDirForScheme {σ : Type} (c : Collaborators σ) (s : σ) (proj : XcodeProj)
    (projectPath scheme configuration : String) (customOptions : List String) :
    Run σ (Except Failure String) :=
  let finish (trace : List Event) (buildSettings : Settings) : Run σ (Except Failure String) :=
    match buildSettings.String "TARGET_BUILD_DIR" with
    | none => ⟨s, trace, .error .parseBuildSettings⟩
    | some schemeBuildDir => ⟨s, trace, .ok schemeBuildDir⟩
  if IsXcodeProj projectPath then
    match mainTargetOfScheme proj scheme with
    | .error err => ⟨s, [], .error (.fetchTargets err)⟩
    | .ok mainTarget =>
      let call := Event.targetBuildSettings mainTarget.Name configuration customOptions
      match c.targetBuildSettings s proj mainTarget.Name configuration customOptions with
      | .error err => ⟨s, [call], .error (.projectBuildSettings projectPath err)⟩
      | .ok buildSettings => finish [call] buildSettings
  else if IsWorkspace projectPath then
    match c.openWorkspace s projectPath with
    | .error err => ⟨s, [.openWorkspace projectPath], .error (.openWorkspace projectPath err)⟩
    | .ok workspace =>
      let call := Event.schemeBuildSettings scheme configuration customOptions
      match c.schemeBuildSettings s workspace scheme configuration customOptions with
      | .error err =>
        ⟨s, [.openWorkspace projectPath, call], .error (.workspaceBuildSettings projectPath err)⟩
      | .ok buildSettings => finish [.openWorkspace projectPath, call] buildSettings
  else ⟨s, [], .error (.projectExtension (Ext projectPath))⟩

/-- Lines 194-206 of `exportArtifacts`: the base directory of the scheme, from
its TARGET_BUILD_DIR split by the build directory. -/
def schemeDirOf (schemeBuildDir : String) : String :=
  let splitSchemeDir := split schemeBuildDir "Build/"
  if splitSchemeDir.length != 2 then schemeBuildDir
  else Join [splitSchemeDir.getD 0 "", "Build"]

/-- Lines 270-276 of `exportArtifacts`: the directory of a target below the
build directory, from its TARGET_BUILD_DIR. -/
def targetDirOf (buildDir : String) : String :=
  let splitTargetDir := split buildDir "Build/"
  if splitTargetDir.length != 2 then buildDir
  else splitTargetDir.getD 1 ""

/-- Lines 226-247 of `exportArtifacts`: the simulator SDK of a target, from
the platform and the result of the SDKROOT query. A failed query leaves the
settings empty, a missing key leaves `sdkRoot` empty. -/
def simulatorNameOf (simulatorPlatform : String) (probe : Except String Settings) : String :=
  let simulatorName := if simulatorPlatform == "tvOS" then tvOSSimName else iOSSimName
  let settings : Settings := match probe with
    | .ok settings => settings
    | .error _ => []
  let sdkRoot := (settings.String "SDKROOT").getD ""
  if contains sdkRoot "WatchOS.platform" then watchOSSimName else simulatorName

/-- Line 288 of `exportArtifacts`: the directories searched for the build
artifact of a target. -/
def sourceDirsOf (proj : XcodeProj) (schemeDir targetDir : String) : List String :=
  [Join [schemeDir, targetDir], schemeDir, Join [Dir proj.Path, schemeDir]]

/-- Lines 292-318 of `exportArtifacts`: the search for the generated build
artifact and its copy; the result tells whether it was exported. -/
def searchAndCopy {σ : Type} (c : Collaborators σ) (productPath destination : String) :
    σ → List String → Run σ Bool
  | s, [] => ⟨s, [], false⟩
  | s, sourceDir :: rest =>
    let source := Join [sourceDir, productPath]
    match c.isPathExists s source with
    | .ok true =>
      let copied := c.copyDir s source destination
      if copied.2 then
        ⟨copied.1, [.isPathExists source true, .copyDir source destination true], true⟩
      else
        let r := searchAndCopy c productPath destination copied.1 rest
        ⟨r.state, .isPathExists source true :: .copyDir source destination false :: r.trace,
          r.result⟩
    | _ =>
      let r := searchAndCopy c productPath destination s rest
      ⟨r.state, .isPathExists source false :: r.trace, r.result⟩

/-- The body of the loop of `exportArtifacts` (lines 216-326) for one target:
nothing for a target that is skipped, the destination for one that is
exported. The `customOptions` of the caller are overwritten (line 253) before
they are read. -/
def exportTarget {σ : Type} (c : Collaborators σ) (proj : XcodeProj)
    (schemeDir configuration simulatorPlatform deployDir : String) (customOptions : List String)
    (s : σ) (target : Target) : Run σ (Except Failure (Option String)) :=
  if !hasSuffix target.ProductReference.Path ".app" then ⟨s, [], .ok none⟩
  else
    let probe := Event.targetBuildSettings target.Name configuration []
    let simulatorName :=
      simulatorNameOf simulatorPlatform (c.targetBuildSettings s proj target.Name configuration [])
    let customOptions := ["-sdk", simulatorName]
    let call := Event.targetBuildSettings target.Name configuration customOptions
    match c.targetBuildSettings s proj target.Name configuration customOptions with
    | .error err => ⟨s, [probe, call], .error (.targetBuildSettings err)⟩
    | .ok buildSettings =>
      match buildSettings.String "TARGET_BUILD_DIR" with
      | none => ⟨s, [probe, call], .error (.targetBuildDir target.Name)⟩
      | some buildDir =>
        let targetDir := targetDirOf buildDir
        let sourceDirs := sourceDirsOf proj schemeDir targetDir
        let destination := Join [deployDir, target.ProductReference.Path]
        let r := searchAndCopy c target.ProductReference.Path destination s sourceDirs
        if r.result then ⟨r.state, probe :: call :: r.trace, .ok (some destination)⟩
        else ⟨r.state, probe :: call :: r.trace, .error .copyFailed⟩

/-- The loop of `exportArtifacts` (lines 215-329) over the targets, with the
artifacts exported by it. -/
def exportTargets {σ : Type} (c : Collaborators σ) (proj : XcodeProj)
    (schemeDir configuration simulatorPlatform deployDir : String) (customOptions : List String) :
    σ → List Target → Run σ (Except Failure (List String))
  | s, [] => ⟨s, [], .ok []⟩
  | s, target :: rest =>
    let r := exportTarget c proj schemeDir configuration simulatorPlatform deployDir
      customOptions s target
    match r.result with
    | .error err => ⟨r.state, r.trace, .error err⟩
    | .ok exported =>
      let rs := exportTargets c proj schemeDir configuration simulatorPlatform deployDir
        customOptions r.state rest
      match rs.result with
      | .error err => ⟨rs.state, r.trace ++ rs.trace, .error err⟩
      | .ok exportedArtifacts =>
        ⟨rs.state, r.trace ++ rs.trace, .ok (exported.toList ++ exportedArtifacts)⟩

/-- Line 213 of `exportArtifacts`: the targets the loop goes over. -/
def exportSequence {σ : Type} (c : Collaborators σ) (mainTarget : Target) : List Target :=
  mainTarget :: c.dependentTargets mainTarget

/-- `exportArtifacts` exports the main target and its .app dependencies. -/
def exportArtifacts {σ : Type} (c : Collaborators σ) (s : σ) (proj : XcodeProj)
    (scheme schemeBuildDir configuration simulatorPlatform deployDir : String)
    (customOptions : List String) : Run σ (Except Failure (List String)) :=
  let schemeDir := schemeDirOf schemeBuildDir
  match mainTargetOfScheme proj scheme with
  | .error err => ⟨s, [], .error (.fetchTargets err)⟩
  | .ok mainTarget =>
    let targets := exportSequence c mainTarget
    exportTargets c proj schemeDir configuration simulatorPlatform deployDir customOptions
      s targets

/-- `simulatorDestinationID` return the simulator ID for the selected device
version. -/
def simulatorDestinationID {σ : Type} (c : Collaborators σ) (s : σ)
    (simulatorOsVersion simulatorPlatform simulatorDevice : String) :
    Run σ (Except Failure String) :=
  if simulatorOsVersion == "latest" then
    let call := Event.getLatestSimulatorInfoAndVersion simulatorPlatform simulatorDevice
    match c.getLatestSimulatorInfoAndVersion s simulatorPlatform simulatorDevice with
    | .error err => ⟨s, [call], .error (.latestSimulatorInfo err)⟩
    | .ok (info, _) => ⟨s, [call], .ok info.ID⟩
  else
    let call := Event.getSimulatorInfo (simulatorPlatform ++ " " ++ simulatorOsVersion)
      simulatorDevice
    match c.getSimulatorInfo s (simulatorPlatform ++ " " ++ simulatorOsVersion)
        simulatorDevice with
    | .error err =>
      ⟨s, [call], .error (.simulatorInfo (simulatorPlatform ++ simulatorOsVersion)
        simulatorDevice err)⟩
    | .ok info => ⟨s, [call], .ok info.ID⟩

/-! ## Dependency closure -/

/-- Modelled from the spec: the walk of `dependencyClosure`, depth-first in
the declared order of the dependencies, tracking the visited identifiers: an
identifier that is already visited, or that no target of the project has, is
passed over; a target that is visited for the first time is recorded and its
dependencies are walked before the identifiers still pending. The walk gives
up when its step budget is used up. -/
def closureWalk (targets : List Target) : Nat → List String → List Target → Option (List Target)
  | _, [], visited => some visited.reverse
  | 0, _ :: _, _ => none
  | fuel + 1, id :: pending, visited =>
    if visited.any (fun t => t.ID == id) then closureWalk targets fuel pending visited
    else
      match targets.find? (fun t => t.ID == id) with
      | none => closureWalk targets fuel pending visited
      | some t => closureWalk targets fuel (t.Dependencies ++ pending) (t :: visited)

/-- The number of steps that is enough for the walk: each target of the
project is recorded at most once and each declared dependency is looked at at
most once. -/
def closureSteps (targets : List Target) (pending : List String) : Nat :=
  pending.length + (targets.map (fun t => t.Dependencies.length + 1)).sum

/-- Modelled from the spec: the targets a target depends on, directly or
transitively: the target itself, and every target of the project that a
declared dependency of such a target identifies. -/
inductive Reaches (targets : List Target) (root : Target) : Target → Prop where
  | root : Reaches targets root root
  | step {a b : Target} {id : String} : Reaches targets root a → id ∈ a.Dependencies →
      targets.find? (fun t => t.ID == id) = some b → Reaches targets root b

/-- The steps the walk can still need for the targets of the project that
are not visited yet. -/
def unvisitedSteps (targets visited : List Target) : Nat :=
  ((targets.filter (fun t => !visited.any (fun v => v.ID == t.ID))).map
    (fun t => t.Dependencies.length + 1)).sum

/-- Modelled from the spec: `dependencyClosure(target)`, the ordered sequence
of the target followed by its direct and transitive dependencies in discovery
order, each appearing once; the library method that computes it,
`DependentTargets`, is not part of the sources. -/
def dependencyClosure (proj : XcodeProj) (target : Target) : Option (List Target) :=
  closureWalk proj.Proj.Targets (closureSteps proj.Proj.Targets target.Dependencies)
    target.Dependencies [target]

/-- Modelled from the spec: `target.DependentTargets()`, the dependency closure
of the target without the target itself, which `exportArtifacts` puts first. -/
def DependentTargets (proj : XcodeProj) (target : Target) : List Target :=
  match dependencyClosure proj target with
  | some closure => closure.tail
  | none => []

/-- Three targets whose dependencies form a cycle through the first, with a
dependency shared by two of them. -/
def cyclicProj : XcodeProj :=
  ⟨"/src/C.xcodeproj",
    ⟨[⟨"1", "One", ⟨"One.app"⟩, ["2", "3"]⟩, ⟨"2", "Two", ⟨"Two.app"⟩, ["3", "1"]⟩,
      ⟨"3", "Three", ⟨"libThree.a"⟩, ["1", "2", "9"]⟩]⟩,
    [⟨"One", ⟨[⟨"YES", ⟨"1", "One.app", "container:C.xcodeproj"⟩⟩]⟩, ⟨"Release"⟩⟩]⟩

/-! ## A small concrete world -/

/-- The application target of the sample project. -/
def sampleApp : Target := ⟨"A", "App", ⟨"App.app"⟩, ["W", "L"]⟩

/-- The watch application the sample application depends on. -/
def sampleWatch : Target := ⟨"W", "Watch", ⟨"Watch.app"⟩, []⟩

/-- The static library the sample application depends on. -/
def sampleLib : Target := ⟨"L", "Lib", ⟨"libLib.a"⟩, []⟩

/-- The scheme of the sample project: a library entry and the application
entry, both built for archiving. -/
def sampleScheme : Scheme :=
  ⟨"App", ⟨[⟨"YES", ⟨"L", "libLib.a", "container:App.xcodeproj"⟩⟩,
    ⟨"YES", ⟨"A", "App.app", "container:App.xcodeproj"⟩⟩]⟩, ⟨"Release"⟩⟩

/-- The sample project. -/
def sampleProj : XcodeProj :=
  ⟨"/src/App.xcodeproj", ⟨[sampleLib, sampleApp, sampleWatch]⟩, [sampleScheme]⟩

/-- Collaborators over a filesystem that is the list of the paths that exist:
the settings of a target name its SDK root and a build directory below
`/dd/Build/Products` that ends in the SDK asked for, the copy creates the
destination, and the simulators are an iPhone 11 on iOS 14.4 and 15.0. -/
def sampleCollaborators : Collaborators (List String) where
  targetBuildSettings := fun _ _ target _ options =>
    if target == "Broken" then .error "xcodebuild failed"
    else .ok [("SDKROOT",
        if target == "Watch" then "/Xcode/Platforms/WatchOS.platform/SDKs/WatchOS.sdk"
        else "/Xcode/Platforms/iPhoneOS.platform/SDKs/iPhoneOS.sdk"),
      ("TARGET_BUILD_DIR", "/dd/Build/Products/Debug-" ++ options.getD 1 "iphoneos")]
  openWorkspace := fun _ path => .ok ⟨path⟩
  schemeBuildSettings := fun _ _ _ _ options =>
    .ok [("TARGET_BUILD_DIR", "/dd/Build/Products/Debug-" ++ options.getD 1 "iphoneos")]
  isPathExists := fun files path => .ok (files.contains path)
  copyDir := fun files _ destination => (destination :: files, true)
  dependentTargets := fun target => if target.ID == "A" then [sampleWatch, sampleLib] else []
  getLatestSimulatorInfoAndVersion := fun _ platform device =>
    if platform == "iOS" && device == "iPhone 11" then .ok (⟨"ID-15", "iPhone 11"⟩, "15.0")
    else .error "no simulator"
  getSimulatorInfo := fun _ platformAndVersion device =>
    if platformAndVersion == "iOS 14.4" && device == "iPhone 11" then .ok ⟨"ID-14", "iPhone 11"⟩
    else .error "no simulator"

/-- The files of the sample build: the bundles of the application and of the
watch application. -/
def sampleFiles : List String :=
  ["/dd/Build/Products/Debug-iphonesimulator/App.app",
    "/dd/Build/Products/Debug-watchsimulator/Watch.app"]

/-- The sample collaborators with a settings query that fails whenever it is
made without options. -/
def probeFailingCollaborators : Collaborators (List String) :=
  { sampleCollaborators with
    targetBuildSettings := fun files proj target configuration options =>
      if options.isEmpty then .error "xcodebuild failed"
      else sampleCollaborators.targetBuildSettings files proj target configuration options }

/-- Helper application of the two-application project. -/
def helperTarget : Target := ⟨"A", "Helper", ⟨"Helper.app"⟩, []⟩

/-- Main application of the two-application project. -/
def archivedTarget : Target := ⟨"B", "Main", ⟨"Main.app"⟩, ["A"]⟩

/-- Scheme with two application entries, of which only the second is built
for archiving. -/
def archiveScheme : Scheme :=
  ⟨"S", ⟨[⟨"NO", ⟨"A", "Helper.app", "container:P.xcodeproj"⟩⟩,
    ⟨"YES", ⟨"B", "Main.app", "container:P.xcodeproj"⟩⟩]⟩, ⟨"Release"⟩⟩

/-- Project of the two applications. -/
def archiveProj : XcodeProj :=
  ⟨"/src/P.xcodeproj", ⟨[helperTarget, archivedTarget]⟩, [archiveScheme]⟩

/-- Collaborators whose dependent targets are those of the dependency closure
in the cyclic project. -/
def cyclicCollaborators : Collaborators (List String) :=
  { sampleCollaborators with dependentTargets := DependentTargets cyclicProj }

/-- The sample collaborators with a copy that fails whenever it reads from the
products directory of the build. -/
def copyFailingCollaborators : Collaborators (List String) :=
  { sampleCollaborators with
    copyDir := fun files source destination =>
      if source == "/dd/Build/Products/Debug-iphonesimulator/App.app" then (files, false)
      else (destination :: files, true) }

/-! ## Theorems -/

/-! ### Splitting -/

theorem isPrefixOf_append_self (sep r : List Char) : sep.isPrefixOf (sep ++ r) = true := by
  induction sep with
  | nil => simp [List.isPrefixOf]
  | cons c cs ih => simp [List.isPrefixOf, ih]

theorem eq_append_drop_of_isPrefixOf (sep l : List Char) (h : sep.isPrefixOf l = true) :
    l = sep ++ l.drop sep.length := by
  induction sep generalizing l with
  | nil => simp
  | cons c cs ih =>
    cases l with
    | nil => simp [List.isPrefixOf] at h
    | cons d ds =>
      simp only [List.isPrefixOf, Bool.and_eq_true, beq_iff_eq] at h
      obtain ⟨h1, h2⟩ := h
      have := ih ds h2
      simp only [List.length_cons, List.drop_succ_cons, List.cons_append]
      rw [← this, h1]

theorem cutChars_some {sep l a b : List Char} (h : cutChars sep l = some (a, b)) :
    l = a ++ sep ++ b := by
  induction l generalizing a with
  | nil =>
    simp only [cutChars] at h
    split at h
    · rename_i hs
      simp only [Option.some.injEq, Prod.mk.injEq] at h
      obtain ⟨rfl, rfl⟩ := h
      simpa using hs
    · simp at h
  | cons c cs ih =>
    simp only [cutChars] at h
    split at h
    · rename_i hp
      simp only [Option.some.injEq, Prod.mk.injEq] at h
      obtain ⟨rfl, rfl⟩ := h
      simpa using eq_append_drop_of_isPrefixOf sep (c :: cs) hp
    · split at h
      · rename_i a1 b1 hc
        simp only [Option.some.injEq, Prod.mk.injEq] at h
        obtain ⟨rfl, rfl⟩ := h
        have := ih hc
        simp [this]
      · simp at h

theorem cutChars_length {sep l a b : List Char} (hsep : sep ≠ [])
    (h : cutChars sep l = some (a, b)) : b.length < l.length := by
  have := congrArg List.length (cutChars_some h)
  have hpos : 0 < sep.length := List.length_pos.mpr hsep
  simp only [List.length_append] at this
  omega

theorem cutChars_none_iff (sep l : List Char) :
    cutChars sep l = none ↔ containsChars sep l = false := by
  induction l with
  | nil =>
    simp only [cutChars, containsChars]
    cases sep <;> simp
  | cons c cs ih =>
    simp only [cutChars, containsChars]
    by_cases hp : sep.isPrefixOf (c :: cs) = true
    · simp [hp]
    · simp only [hp, Bool.false_eq_true, if_false, Bool.false_or]
      rw [← ih]
      cases hc : cutChars sep cs with
      | none => simp
      | some ab => simp

theorem splitChars_fuel (sep : List Char) (hsep : sep ≠ []) :
    ∀ (n m : Nat) (l : List Char), l.length ≤ n → l.length ≤ m →
      splitChars sep n l = splitChars sep m l := by
  intro n
  induction n with
  | zero =>
    intro m l hn _
    have hl : l = [] := List.length_eq_zero.mp (Nat.le_zero.mp hn)
    subst hl
    cases m with
    | zero => rfl
    | succ m =>
      cases sep with
      | nil => exact absurd rfl hsep
      | cons c cs => simp [splitChars, cutChars]
  | succ n ih =>
    intro m l hn hm
    cases m with
    | zero =>
      have hl : l = [] := List.length_eq_zero.mp (Nat.le_zero.mp hm)
      subst hl
      cases sep with
      | nil => exact absurd rfl hsep
      | cons c cs => simp [splitChars, cutChars]
    | succ m =>
      simp only [splitChars]
      cases hc : cutChars sep l with
      | none => rfl
      | some ab =>
        obtain ⟨a, b⟩ := ab
        have hb := cutChars_length hsep hc
        simp only
        rw [ih m b (by omega) (by omega)]

theorem splitChars_unfold (sep : List Char) (hsep : sep ≠ []) (n : Nat) (l : List Char)
    (hn : l.length ≤ n) :
    splitChars sep n l =
      match cutChars sep l with
      | none => [l]
      | some (a, b) => a :: splitChars sep b.length b := by
  cases n with
  | zero =>
    have hl : l = [] := List.length_eq_zero.mp (Nat.le_zero.mp hn)
    subst hl
    cases sep with
    | nil => exact absurd rfl hsep
    | cons c cs => simp [splitChars, cutChars]
  | succ n =>
    simp only [splitChars]
    cases hc : cutChars sep l with
    | none => rfl
    | some ab =>
      obtain ⟨a, b⟩ := ab
      have hb := cutChars_length hsep hc
      simp only
      rw [splitChars_fuel sep hsep n b.length b (by omega) (le_refl _)]

theorem splitChars_ne_nil (sep : List Char) (n : Nat) (l : List Char) :
    splitChars sep n l ≠ [] := by
  cases n with
  | zero => simp [splitChars]
  | succ n =>
    simp only [splitChars]
    split <;> simp

/-- Two parts come out of the split exactly when the separator cuts the text
once and does not occur in what follows the cut. -/
theorem splitChars_pair_iff (sep : List Char) (hsep : sep ≠ []) (l p0 p1 : List Char) :
    splitChars sep l.length l = [p0, p1] ↔
      cutChars sep l = some (p0, p1) ∧ cutChars sep p1 = none := by
  rw [splitChars_unfold sep hsep l.length l (le_refl _)]
  cases hc : cutChars sep l with
  | none => simp
  | some ab =>
    obtain ⟨a, b⟩ := ab
    simp only [List.cons.injEq, Option.some.injEq, Prod.mk.injEq]
    rw [splitChars_unfold sep hsep b.length b (le_refl _)]
    cases hb : cutChars sep b with
    | none =>
      simp only [List.cons.injEq, and_true]
      constructor
      · rintro ⟨rfl, rfl⟩
        exact ⟨⟨rfl, rfl⟩, hb⟩
      · rintro ⟨⟨rfl, rfl⟩, _⟩
        exact ⟨rfl, rfl⟩
    | some cd =>
      obtain ⟨c, d⟩ := cd
      simp only [List.cons.injEq]
      constructor
      · rintro ⟨_, _, h⟩
        exact absurd h (splitChars_ne_nil sep _ _)
      · rintro ⟨⟨rfl, rfl⟩, h⟩
        rw [hb] at h
        exact absurd h (by simp)

theorem splitChars_single_iff (sep : List Char) (hsep : sep ≠ []) (l : List Char) :
    (splitChars sep l.length l).length = 1 ↔ cutChars sep l = none := by
  rw [splitChars_unfold sep hsep l.length l (le_refl _)]
  cases hc : cutChars sep l with
  | none => simp
  | some ab =>
    obtain ⟨a, b⟩ := ab
    simp only [List.length_cons, add_left_eq_self, List.length_eq_zero]
    constructor
    · intro h
      exact absurd h (splitChars_ne_nil sep _ _)
    · intro h
      exact absurd h (by simp)

theorem split_pair_iff (s p0 p1 : String) :
    split s "Build/" = [p0, p1] ↔
      cutChars "Build/".data s.data = some (p0.data, p1.data) ∧
        cutChars "Build/".data p1.data = none := by
  rw [← splitChars_pair_iff "Build/".data (by decide)]
  unfold split
  constructor
  · intro h
    have := congrArg (List.map String.data) h
    simpa [List.map_map, Function.comp_def] using this
  · intro h
    rw [h]
    rfl

/-- The two parts of a split are the text before the marker and the text after
it. -/
theorem split_pair_append {s p0 p1 : String} (h : split s "Build/" = [p0, p1]) :
    s = p0 ++ "Build/" ++ p1 := by
  have hc := cutChars_some ((split_pair_iff s p0 p1).mp h).1
  apply String.ext
  simp only [String.data_append]
  exact hc

theorem containsChars_append (sep u v : List Char) :
    containsChars sep (u ++ sep ++ v) = true := by
  induction u with
  | nil =>
    cases h : sep ++ v with
    | nil =>
      obtain ⟨hs, hv⟩ := List.append_eq_nil.mp h
      subst hs hv
      rfl
    | cons c cs =>
      simp only [List.nil_append, h, containsChars, Bool.or_eq_true]
      left
      rw [← h]
      exact isPrefixOf_append_self sep v
  | cons c cs ih =>
    simp only [List.cons_append, containsChars, Bool.or_eq_true]
    right
    simpa using ih

/-- The text after the first cut still ends in everything that followed a
later occurrence of the separator. -/
theorem cutChars_append (sep : List Char) (hsep : sep ≠ []) (a r : List Char) :
    ∃ a1 pre, cutChars sep (a ++ sep ++ r) = some (a1, pre ++ r) := by
  induction a with
  | nil =>
    refine ⟨[], [], ?_⟩
    cases h : sep ++ r with
    | nil => exact absurd (List.append_eq_nil.mp h).1 hsep
    | cons c cs =>
      have hp : sep.isPrefixOf (c :: cs) = true := by
        rw [← h]
        exact isPrefixOf_append_self sep r
      simp only [List.nil_append, h, cutChars, hp, if_true]
      rw [← h]
      simp
  | cons c cs ih =>
    obtain ⟨a1, pre, hc⟩ := ih
    have e : (c :: cs) ++ sep ++ r = c :: (cs ++ sep ++ r) := by simp
    rw [e]
    by_cases hp : sep.isPrefixOf (c :: (cs ++ sep ++ r)) = true
    · refine ⟨[], (c :: (cs ++ sep)).drop sep.length, ?_⟩
      have hlen : sep.length ≤ (c :: (cs ++ sep)).length := by
        simp only [List.length_cons, List.length_append]
        omega
      have : (c :: (cs ++ sep ++ r)) = (c :: (cs ++ sep)) ++ r := by simp
      rw [cutChars, if_pos hp, this, List.drop_append_of_le_length hlen]
    · refine ⟨c :: a1, pre, ?_⟩
      rw [cutChars, if_neg hp, hc]

theorem splitChars_twice (sep : List Char) (hsep : sep ≠ []) (a b c : List Char) :
    3 ≤ (splitChars sep (a ++ sep ++ b ++ sep ++ c).length (a ++ sep ++ b ++ sep ++ c)).length := by
  rw [splitChars_unfold sep hsep _ _ (le_refl _)]
  obtain ⟨a1, pre, hc⟩ := cutChars_append sep hsep a (b ++ sep ++ c)
  have e : a ++ sep ++ b ++ sep ++ c = a ++ sep ++ (b ++ sep ++ c) := by simp
  rw [e, hc]
  simp only [List.length_cons]
  rw [splitChars_unfold sep hsep _ _ (le_refl _)]
  have hcon : containsChars sep (pre ++ (b ++ sep ++ c)) = true := by
    have := containsChars_append sep (pre ++ b) c
    simpa using this
  cases hb : cutChars sep (pre ++ (b ++ sep ++ c)) with
  | none =>
    rw [(cutChars_none_iff _ _).mp hb] at hcon
    exact absurd hcon (by simp)
  | some xy =>
    obtain ⟨x, y⟩ := xy
    simp only [List.length_cons]
    have := List.length_pos.mpr (splitChars_ne_nil sep y.length y)
    omega

theorem split_length (s sep : String) :
    (split s sep).length = (splitChars sep.data s.data.length s.data).length := by
  simp [split]

/-- C5: the build root `schemeDir` of `exportArtifacts` is
`Join(p0, "Build")` when the split of the raw build directory on `Build/`
yields exactly the two parts `p0`, `p1`, and the raw string unchanged when it
yields another number of parts, which it does when the marker is absent (one
part) and when it occurs more than once (three or more). The build directory
`/a/b/Build/Products/Debug` has the parts `/a/b/` and `Products/Debug` and the
root `/a/b/Build`; `/a/b/Products/Debug` is its own root. -/
theorem schemeDirOf_split (schemeBuildDir : String) :
    (∀ p0 p1, split schemeBuildDir "Build/" = [p0, p1] →
      schemeDirOf schemeBuildDir = Join [p0, "Build"]) ∧
    ((split schemeBuildDir "Build/").length ≠ 2 →
      schemeDirOf schemeBuildDir = schemeBuildDir) ∧
    (contains schemeBuildDir "Build/" = false →
      (split schemeBuildDir "Build/").length = 1 ∧
        schemeDirOf schemeBuildDir = schemeBuildDir) ∧
    (∀ a b c : String, schemeBuildDir = a ++ "Build/" ++ b ++ "Build/" ++ c →
      3 ≤ (split schemeBuildDir "Build/").length ∧
        schemeDirOf schemeBuildDir = schemeBuildDir) ∧
    (split "/a/b/Build/Products/Debug" "Build/" = ["/a/b/", "Products/Debug"] ∧
      schemeDirOf "/a/b/Build/Products/Debug" = "/a/b/Build") ∧
    (contains "/a/b/Products/Debug" "Build/" = false ∧
      schemeDirOf "/a/b/Products/Debug" = "/a/b/Products/Debug") := by
  have hne : ∀ s : String, (split s "Build/").length ≠ 2 → schemeDirOf s = s := by
    intro s h
    simp [schemeDirOf, h]
  refine ⟨?_, hne schemeBuildDir, ?_, ?_, ⟨by decide, by decide⟩, ⟨by decide, by decide⟩⟩
  · intro p0 p1 h
    simp [schemeDirOf, h]
  · intro h
    have h1 : (split schemeBuildDir "Build/").length = 1 := by
      rw [split_length, splitChars_single_iff _ (by decide), cutChars_none_iff]
      exact h
    exact ⟨h1, hne schemeBuildDir (by omega)⟩
  · intro a b c h
    have h3 : 3 ≤ (split schemeBuildDir "Build/").length := by
      rw [split_length, h]
      simp only [String.data_append]
      exact splitChars_twice "Build/".data (by decide) a.data b.data c.data
    exact ⟨h3, hne schemeBuildDir (by omega)⟩

/-- The root of C5 for a build directory of a workspace build, and for one in
which the marker occurs twice. -/
theorem schemeDirOf_split_witness :
    schemeDirOf "/dd/Build/Products/Debug-iphonesimulator"
        = Join ["/dd/", "Build"] ∧
      schemeDirOf "/a/Build/b/Build/c" = "/a/Build/b/Build/c" :=
  ⟨(schemeDirOf_split "/dd/Build/Products/Debug-iphonesimulator").1
      "/dd/" "Products/Debug-iphonesimulator" (by decide),
    ((schemeDirOf_split "/a/Build/b/Build/c").2.2.2.1 "/a/" "b/" "c" (by decide)).2⟩

/-! ### Main target, SDK and options -/

/-- C1: on a scheme whose first entry is an application reference that is not
built for archiving and whose second entry is an application reference built
for archiving, `mainTargetOfScheme` returns the target of the first entry,
while the entry selection of `findBuiltProject` takes the second entry. -/
theorem mainTargetOfScheme_ignores_BuildForArchiving :
    mainTargetOfScheme archiveProj "S" = .ok helperTarget ∧
      findBuiltProjectArchiveEntry archiveScheme
        = ⟨"YES", ⟨"B", "Main.app", "container:P.xcodeproj"⟩⟩ ∧
      archiveProj.Proj.Targets.find? (fun t => t.ID == "B") = some archivedTarget := by
  decide

/-- The search of `exportArtifacts` makes no build-settings query. -/
theorem searchAndCopy_no_query {σ : Type} (c : Collaborators σ) (productPath destination : String)
    (dirs : List String) (s : σ) :
    ∀ e ∈ (searchAndCopy c productPath destination s dirs).trace,
      ∀ name cfg options, e ≠ .targetBuildSettings name cfg options ∧
        e ≠ .schemeBuildSettings name cfg options := by
  induction dirs generalizing s with
  | nil => simp [searchAndCopy]
  | cons d ds ih =>
    intro e he name cfg options
    simp only [searchAndCopy] at he
    split at he
    · split at he
      · simp only [List.mem_cons, List.mem_singleton, List.not_mem_nil, or_false] at he
        rcases he with rfl | rfl <;> simp
      · simp only [List.mem_cons] at he
        rcases he with rfl | rfl | he
        · simp
        · simp
        · exact ih _ e he name cfg options
    · simp only [List.mem_cons] at he
      rcases he with rfl | he
      · simp
      · exact ih _ e he name cfg options

/-- The simulator SDK chosen for a target is the watch simulator when the
SDK root of the probe names the watch platform, and the SDK of the platform
otherwise. -/
theorem simulatorNameOf_cases (simulatorPlatform : String) (probe : Except String Settings) :
    (∀ settings sdkRoot, probe = .ok settings → settings.String "SDKROOT" = some sdkRoot →
      contains sdkRoot "WatchOS.platform" = true →
      simulatorNameOf simulatorPlatform probe = "watchsimulator") ∧
    (∀ settings sdkRoot, probe = .ok settings → settings.String "SDKROOT" = some sdkRoot →
      contains sdkRoot "WatchOS.platform" = false →
      simulatorNameOf simulatorPlatform probe
        = if simulatorPlatform = "tvOS" then "appletvsimulator" else "iphonesimulator") ∧
    (∀ settings, probe = .ok settings → settings.String "SDKROOT" = none →
      simulatorNameOf simulatorPlatform probe
        = if simulatorPlatform = "tvOS" then "appletvsimulator" else "iphonesimulator") ∧
    (∀ err, probe = .error err →
      simulatorNameOf simulatorPlatform probe
        = if simulatorPlatform = "tvOS" then "appletvsimulator" else "iphonesimulator") := by
  have hempty : contains "" "WatchOS.platform" = false := by decide
  refine ⟨?_, ?_, ?_, ?_⟩
  · intro settings sdkRoot hp hk hw
    subst hp
    simp [simulatorNameOf, hk, hw, watchOSSimName]
  · intro settings sdkRoot hp hk hw
    subst hp
    by_cases ht : simulatorPlatform = "tvOS" <;>
      simp [simulatorNameOf, hk, hw, ht, tvOSSimName, iOSSimName]
  · intro settings hp hk
    subst hp
    by_cases ht : simulatorPlatform = "tvOS" <;>
      simp [simulatorNameOf, hk, hempty, ht, tvOSSimName, iOSSimName]
  · intro err hp
    subst hp
    have hk : Settings.String [] "SDKROOT" = none := rfl
    by_cases ht : simulatorPlatform = "tvOS" <;>
      simp [simulatorNameOf, hk, hempty, ht, tvOSSimName, iOSSimName]

/-- The trace of the loop body for an application target starts with the SDK
root probe and the build-directory query with the chosen SDK, and holds no
other build-settings query. -/
theorem exportTarget_trace {σ : Type} (c : Collaborators σ) (proj : XcodeProj)
    (schemeDir configuration simulatorPlatform deployDir : String) (customOptions : List String)
    (s : σ) (target : Target) (happ : hasSuffix target.ProductReference.Path ".app" = true) :
    ∃ rest,
      (exportTarget c proj schemeDir configuration simulatorPlatform deployDir customOptions
          s target).trace
        = .targetBuildSettings target.Name configuration [] ::
          .targetBuildSettings target.Name configuration
            ["-sdk", simulatorNameOf simulatorPlatform
              (c.targetBuildSettings s proj target.Name configuration [])] :: rest ∧
      ∀ e ∈ rest, ∀ name cfg options, e ≠ .targetBuildSettings name cfg options ∧
        e ≠ .schemeBuildSettings name cfg options := by
  simp only [exportTarget, happ, Bool.not_true, Bool.false_eq_true, if_false]
  split
  · exact ⟨[], rfl, by simp⟩
  · split
    · exact ⟨[], rfl, by simp⟩
    · split
      · exact ⟨_, rfl, searchAndCopy_no_query c _ _ _ s⟩
      · exact ⟨_, rfl, searchAndCopy_no_query c _ _ _ s⟩

/-- C7: for an application target the loop body of `exportArtifacts` first
probes the settings of the target without options and then queries them with
`-sdk` and the chosen name, whatever the probe returned. The name is
`watchsimulator` when the probed SDKROOT contains `WatchOS.platform`,
otherwise `appletvsimulator` on the platform `tvOS` and `iphonesimulator` on
any other; a failed probe and a probe without SDKROOT give the name of the
platform, and after a failed probe the target is exported as soon as the
second query and the search succeed. -/
theorem exportTarget_simulator_sdk {σ : Type} (c : Collaborators σ) (proj : XcodeProj)
    (schemeDir configuration simulatorPlatform deployDir : String) (customOptions : List String)
    (s : σ) (target : Target) (happ : hasSuffix target.ProductReference.Path ".app" = true) :
    (∃ rest,
      (exportTarget c proj schemeDir configuration simulatorPlatform deployDir customOptions
          s target).trace
        = .targetBuildSettings target.Name configuration [] ::
          .targetBuildSettings target.Name configuration
            ["-sdk", simulatorNameOf simulatorPlatform
              (c.targetBuildSettings s proj target.Name configuration [])] :: rest ∧
      ∀ e ∈ rest, ∀ name cfg options, e ≠ .targetBuildSettings name cfg options ∧
        e ≠ .schemeBuildSettings name cfg options) ∧
    (∀ settings sdkRoot, c.targetBuildSettings s proj target.Name configuration [] = .ok settings →
      settings.String "SDKROOT" = some sdkRoot → contains sdkRoot "WatchOS.platform" = true →
      simulatorNameOf simulatorPlatform (c.targetBuildSettings s proj target.Name configuration [])
        = "watchsimulator") ∧
    (∀ settings sdkRoot, c.targetBuildSettings s proj target.Name configuration [] = .ok settings →
      settings.String "SDKROOT" = some sdkRoot → contains sdkRoot "WatchOS.platform" = false →
      simulatorNameOf simulatorPlatform (c.targetBuildSettings s proj target.Name configuration [])
        = if simulatorPlatform = "tvOS" then "appletvsimulator" else "iphonesimulator") ∧
    (∀ settings, c.targetBuildSettings s proj target.Name configuration [] = .ok settings →
      settings.String "SDKROOT" = none →
      simulatorNameOf simulatorPlatform (c.targetBuildSettings s proj target.Name configuration [])
        = if simulatorPlatform = "tvOS" then "appletvsimulator" else "iphonesimulator") ∧
    (∀ err, c.targetBuildSettings s proj target.Name configuration [] = .error err →
      simulatorNameOf simulatorPlatform (c.targetBuildSettings s proj target.Name configuration [])
          = (if simulatorPlatform = "tvOS" then "appletvsimulator" else "iphonesimulator") ∧
      ∀ buildSettings buildDir,
        c.targetBuildSettings s proj target.Name configuration
            ["-sdk", if simulatorPlatform = "tvOS" then "appletvsimulator" else "iphonesimulator"]
          = .ok buildSettings →
        buildSettings.String "TARGET_BUILD_DIR" = some buildDir →
        (searchAndCopy c target.ProductReference.Path
            (Join [deployDir, target.ProductReference.Path]) s
            (sourceDirsOf proj schemeDir (targetDirOf buildDir))).result = true →
        (exportTarget c proj schemeDir configuration simulatorPlatform deployDir customOptions
            s target).result = .ok (some (Join [deployDir, target.ProductReference.Path]))) := by
  obtain ⟨h1, h2, h3, h4⟩ := simulatorNameOf_cases simulatorPlatform
    (c.targetBuildSettings s proj target.Name configuration [])
  refine ⟨exportTarget_trace c proj schemeDir configuration simulatorPlatform deployDir
    customOptions s target happ, h1, h2, h3, ?_⟩
  intro err herr
  refine ⟨h4 err herr, ?_⟩
  intro buildSettings buildDir hq hdir hsearch
  have hname := h4 err herr
  simp only [exportTarget, happ, Bool.not_true, Bool.false_eq_true, if_false, hname, hq, hdir,
    hsearch, if_true]

/-- The SDK of C7 on the sample project: the watch application is queried with
the watch simulator, and the application is exported although its probe
fails. -/
theorem exportTarget_simulator_sdk_witness :
    simulatorNameOf "iOS" (sampleCollaborators.targetBuildSettings sampleFiles sampleProj
        sampleWatch.Name "Debug" []) = "watchsimulator" ∧
      (exportTarget probeFailingCollaborators sampleProj "/dd/Build" "Debug" "iOS" "/deploy" []
        sampleFiles sampleApp).result = .ok (some (Join ["/deploy", "App.app"])) :=
  ⟨(exportTarget_simulator_sdk sampleCollaborators sampleProj "/dd/Build" "Debug" "iOS" "/deploy"
      [] sampleFiles sampleWatch (by decide)).2.1
        [("SDKROOT", "/Xcode/Platforms/WatchOS.platform/SDKs/WatchOS.sdk"),
          ("TARGET_BUILD_DIR", "/dd/Build/Products/Debug-iphoneos")]
        "/Xcode/Platforms/WatchOS.platform/SDKs/WatchOS.sdk" (by decide) (by decide) (by decide),
    ((exportTarget_simulator_sdk probeFailingCollaborators sampleProj "/dd/Build" "Debug" "iOS"
      "/deploy" [] sampleFiles sampleApp (by decide)).2.2.2.2 "xcodebuild failed" rfl).2
        [("SDKROOT", "/Xcode/Platforms/iPhoneOS.platform/SDKs/iPhoneOS.sdk"),
          ("TARGET_BUILD_DIR", "/dd/Build/Products/Debug-iphonesimulator")]
        "/dd/Build/Products/Debug-iphonesimulator" (by decide) (by decide) (by decide)⟩

/-! ### The search for the build artifact -/

/-- A search that exports nothing made no successful copy. -/
theorem searchAndCopy_failed {σ : Type} (c : Collaborators σ) (productPath destination : String)
    (dirs : List String) (s : σ)
    (h : (searchAndCopy c productPath destination s dirs).result = false) :
    ∀ e ∈ (searchAndCopy c productPath destination s dirs).trace,
      ∀ source dst, e ≠ .copyDir source dst true := by
  induction dirs generalizing s with
  | nil => simp [searchAndCopy]
  | cons d ds ih =>
    intro e he source dst
    simp only [searchAndCopy] at h he
    split at he
    · rename_i hex
      simp only [hex] at h
      split at he
      · rename_i hcp
        simp [hcp] at h
      · rename_i hcp
        simp only [hcp, Bool.false_eq_true, if_false] at h
        simp only [List.mem_cons] at he
        rcases he with rfl | rfl | he
        · simp
        · simp
        · exact ih _ h e he source dst
    · rename_i hex
      have h2 : (searchAndCopy c productPath destination s ds).result = false := by
        revert h
        split
        · rename_i hex2
          exact absurd hex2 (by simpa using hex)
        · exact id
      simp only [List.mem_cons] at he
      rcases he with rfl | he
      · simp
      · exact ih _ h2 e he source dst

/-- Every copy of the search goes to the destination of the target. -/
theorem searchAndCopy_copy_destination {σ : Type} (c : Collaborators σ)
    (productPath destination : String) (dirs : List String) (s : σ) :
    ∀ e ∈ (searchAndCopy c productPath destination s dirs).trace,
      ∀ source dst ok, e = .copyDir source dst ok → dst = destination := by
  induction dirs generalizing s with
  | nil => simp [searchAndCopy]
  | cons d ds ih =>
    intro e he source dst ok heq
    simp only [searchAndCopy] at he
    split at he
    · split at he
      · simp only [List.mem_cons, List.mem_singleton, List.not_mem_nil, or_false] at he
        rcases he with rfl | rfl
        · simp at heq
        · simp only [Event.copyDir.injEq] at heq
          exact heq.2.1.symm
      · simp only [List.mem_cons] at he
        rcases he with rfl | rfl | he
        · simp at heq
        · simp only [Event.copyDir.injEq] at heq
          exact heq.2.1.symm
        · exact ih _ e he source dst ok heq
    · simp only [List.mem_cons] at he
      rcases he with rfl | he
      · simp at heq
      · exact ih _ e he source dst ok heq

/-- A search that exports the artifact failed on the candidates before some
candidate, found the artifact there, copied it, and stopped. -/
theorem searchAndCopy_succeeded {σ : Type} (c : Collaborators σ)
    (productPath destination : String) (dirs : List String) (s : σ)
    (h : (searchAndCopy c productPath destination s dirs).result = true) :
    ∃ pre cand post, dirs = pre ++ cand :: post ∧
      (searchAndCopy c productPath destination s pre).result = false ∧
      c.isPathExists (searchAndCopy c productPath destination s pre).state
        (Join [cand, productPath]) = .ok true ∧
      c.copyDir (searchAndCopy c productPath destination s pre).state
        (Join [cand, productPath]) destination
          = ((searchAndCopy c productPath destination s dirs).state, true) ∧
      (searchAndCopy c productPath destination s dirs).trace
        = (searchAndCopy c productPath destination s pre).trace ++
          [.isPathExists (Join [cand, productPath]) true,
            .copyDir (Join [cand, productPath]) destination true] := by
  induction dirs generalizing s with
  | nil => simp [searchAndCopy] at h
  | cons d ds ih =>
    cases hex : c.isPathExists s (Join [d, productPath]) with
    | error err =>
      have hrun : searchAndCopy c productPath destination s (d :: ds)
          = ⟨(searchAndCopy c productPath destination s ds).state,
              .isPathExists (Join [d, productPath]) false ::
                (searchAndCopy c productPath destination s ds).trace,
              (searchAndCopy c productPath destination s ds).result⟩ := by
        simp [searchAndCopy, hex]
      rw [hrun] at h
      obtain ⟨pre, cand, post, hd, hf, he, hc, ht⟩ := ih s h
      refine ⟨d :: pre, cand, post, by simp [hd], ?_, ?_, ?_, ?_⟩
      · simp [searchAndCopy, hex, hf]
      · simpa [searchAndCopy, hex] using he
      · simpa [searchAndCopy, hex] using hc
      · simp [searchAndCopy, hex, ht]
    | ok found =>
      cases found with
      | false =>
        have hrun : searchAndCopy c productPath destination s (d :: ds)
            = ⟨(searchAndCopy c productPath destination s ds).state,
                .isPathExists (Join [d, productPath]) false ::
                  (searchAndCopy c productPath destination s ds).trace,
                (searchAndCopy c productPath destination s ds).result⟩ := by
          simp [searchAndCopy, hex]
        rw [hrun] at h
        obtain ⟨pre, cand, post, hd, hf, he, hc, ht⟩ := ih s h
        refine ⟨d :: pre, cand, post, by simp [hd], ?_, ?_, ?_, ?_⟩
        · simp [searchAndCopy, hex, hf]
        · simpa [searchAndCopy, hex] using he
        · simpa [searchAndCopy, hex] using hc
        · simp [searchAndCopy, hex, ht]
      | true =>
        cases hcp : (c.copyDir s (Join [d, productPath]) destination).2 with
        | true =>
          refine ⟨[], d, ds, rfl, rfl, ?_, ?_, ?_⟩
          · simpa [searchAndCopy] using hex
          · simp only [searchAndCopy, hex, hcp, if_true]
            rw [← hcp]
          · simp [searchAndCopy, hex, hcp]
        | false =>
          have hrun : searchAndCopy c productPath destination s (d :: ds)
              = ⟨(searchAndCopy c productPath destination
                    (c.copyDir s (Join [d, productPath]) destination).1 ds).state,
                  .isPathExists (Join [d, productPath]) true ::
                    .copyDir (Join [d, productPath]) destination false ::
                    (searchAndCopy c productPath destination
                      (c.copyDir s (Join [d, productPath]) destination).1 ds).trace,
                  (searchAndCopy c productPath destination
                    (c.copyDir s (Join [d, productPath]) destination).1 ds).result⟩ := by
            simp [searchAndCopy, hex, hcp]
          rw [hrun] at h
          obtain ⟨pre, cand, post, hd, hf, he, hc, ht⟩ := ih _ h
          refine ⟨d :: pre, cand, post, by simp [hd], ?_, ?_, ?_, ?_⟩
          · simp [searchAndCopy, hex, hcp, hf]
          · simpa [searchAndCopy, hex, hcp] using he
          · simpa [searchAndCopy, hex, hcp] using hc
          · simp [searchAndCopy, hex, hcp, ht]

/-- A search among candidates at none of which the artifact exists probes
each of them, copies nothing and leaves the state as it was. -/
theorem searchAndCopy_missing {σ : Type} (c : Collaborators σ) (productPath destination : String)
    (dirs : List String) (s : σ)
    (h : ∀ dir ∈ dirs, c.isPathExists s (Join [dir, productPath]) ≠ .ok true) :
    searchAndCopy c productPath destination s dirs
      = ⟨s, dirs.map (fun dir => .isPathExists (Join [dir, productPath]) false), false⟩ := by
  induction dirs with
  | nil => rfl
  | cons d ds ih =>
    have hd := h d (List.mem_cons_self _ _)
    have hds := ih (fun dir hdir => h dir (List.mem_cons_of_mem _ hdir))
    simp only [searchAndCopy, List.map_cons]
    rw [hds]

/-- One turn of the search loop: a candidate at which the artifact exists and
is copied ends the search; one at which the copy fails, or at which the
artifact is not found, is followed by the search over the candidates after
it. -/
theorem searchAndCopy_cons {σ : Type} (c : Collaborators σ) (productPath destination : String)
    (s : σ) (dir : String) (rest : List String) :
    searchAndCopy c productPath destination s (dir :: rest)
      = if c.isPathExists s (Join [dir, productPath]) = .ok true then
          if (c.copyDir s (Join [dir, productPath]) destination).2 = true then
            ⟨(c.copyDir s (Join [dir, productPath]) destination).1,
              [.isPathExists (Join [dir, productPath]) true,
                .copyDir (Join [dir, productPath]) destination true], true⟩
          else
            ⟨(searchAndCopy c productPath destination
                (c.copyDir s (Join [dir, productPath]) destination).1 rest).state,
              .isPathExists (Join [dir, productPath]) true ::
                .copyDir (Join [dir, productPath]) destination false ::
                (searchAndCopy c productPath destination
                  (c.copyDir s (Join [dir, productPath]) destination).1 rest).trace,
              (searchAndCopy c productPath destination
                (c.copyDir s (Join [dir, productPath]) destination).1 rest).result⟩
        else
          ⟨(searchAndCopy c productPath destination s rest).state,
            .isPathExists (Join [dir, productPath]) false ::
              (searchAndCopy c productPath destination s rest).trace,
            (searchAndCopy c productPath destination s rest).result⟩ := by
  by_cases hex : c.isPathExists s (Join [dir, productPath]) = .ok true
  · cases hcp : (c.copyDir s (Join [dir, productPath]) destination).2 <;>
      simp [searchAndCopy, hex, hcp]
  · simp [searchAndCopy, hex]

/-- The loop body for an application target whose build directory is known:
the two queries, then the search over the candidate directories. -/
theorem exportTarget_run {σ : Type} (c : Collaborators σ) (proj : XcodeProj)
    (schemeDir configuration simulatorPlatform deployDir : String) (customOptions : List String)
    (s : σ) (target : Target) (happ : hasSuffix target.ProductReference.Path ".app" = true)
    (buildSettings : Settings) (buildDir : String)
    (hq : c.targetBuildSettings s proj target.Name configuration
        ["-sdk", simulatorNameOf simulatorPlatform
          (c.targetBuildSettings s proj target.Name configuration [])] = .ok buildSettings)
    (hdir : buildSettings.String "TARGET_BUILD_DIR" = some buildDir) :
    exportTarget c proj schemeDir configuration simulatorPlatform deployDir customOptions s target
      = ⟨(searchAndCopy c target.ProductReference.Path
            (Join [deployDir, target.ProductReference.Path]) s
            (sourceDirsOf proj schemeDir (targetDirOf buildDir))).state,
          .targetBuildSettings target.Name configuration [] ::
            .targetBuildSettings target.Name configuration
              ["-sdk", simulatorNameOf simulatorPlatform
                (c.targetBuildSettings s proj target.Name configuration [])] ::
            (searchAndCopy c target.ProductReference.Path
              (Join [deployDir, target.ProductReference.Path]) s
              (sourceDirsOf proj schemeDir (targetDirOf buildDir))).trace,
          if (searchAndCopy c target.ProductReference.Path
              (Join [deployDir, target.ProductReference.Path]) s
              (sourceDirsOf proj schemeDir (targetDirOf buildDir))).result = true
          then .ok (some (Join [deployDir, target.ProductReference.Path]))
          else .error .copyFailed⟩ := by
  simp only [exportTarget, happ, Bool.not_true, Bool.false_eq_true, if_false, hq, hdir]
  split <;> rfl

/-- The loop body for an application target whose build directory is known,
in terms of the collaborators alone. Each candidate is probed in the state the
candidates before it left; a candidate at which the bundle exists is copied
from, and the state is then the one the copy left. The target is exported from
the first candidate at which the bundle exists and the copy succeeds, nothing
is called after that copy, and the export fails when there is no such
candidate. -/
theorem exportTarget_three_candidates {σ : Type} (c : Collaborators σ) (proj : XcodeProj)
    (schemeDir configuration simulatorPlatform deployDir : String) (customOptions : List String)
    (s : σ) (target : Target) (happ : hasSuffix target.ProductReference.Path ".app" = true)
    (buildSettings : Settings) (buildDir : String)
    (hq : c.targetBuildSettings s proj target.Name configuration
        ["-sdk", simulatorNameOf simulatorPlatform
          (c.targetBuildSettings s proj target.Name configuration [])] = .ok buildSettings)
    (hdir : buildSettings.String "TARGET_BUILD_DIR" = some buildDir)
    (src1 src2 src3 dst : String) (s1 s2 s3 : σ) (t1 t2 t3 : List Event)
    (hsrc1 : src1 = Join [Join [schemeDir, targetDirOf buildDir], target.ProductReference.Path])
    (hsrc2 : src2 = Join [schemeDir, target.ProductReference.Path])
    (hsrc3 : src3 = Join [Join [Dir proj.Path, schemeDir], target.ProductReference.Path])
    (hdst : dst = Join [deployDir, target.ProductReference.Path])
    (hs1 : s1 = if c.isPathExists s src1 = .ok true then (c.copyDir s src1 dst).1 else s)
    (ht1 : t1 = if c.isPathExists s src1 = .ok true
      then [.isPathExists src1 true, .copyDir src1 dst (c.copyDir s src1 dst).2]
      else [.isPathExists src1 false])
    (hs2 : s2 = if c.isPathExists s1 src2 = .ok true then (c.copyDir s1 src2 dst).1 else s1)
    (ht2 : t2 = if c.isPathExists s1 src2 = .ok true
      then [.isPathExists src2 true, .copyDir src2 dst (c.copyDir s1 src2 dst).2]
      else [.isPathExists src2 false])
    (hs3 : s3 = if c.isPathExists s2 src3 = .ok true then (c.copyDir s2 src3 dst).1 else s2)
    (ht3 : t3 = if c.isPathExists s2 src3 = .ok true
      then [.isPathExists src3 true, .copyDir src3 dst (c.copyDir s2 src3 dst).2]
      else [.isPathExists src3 false]) :
    exportTarget c proj schemeDir configuration simulatorPlatform deployDir customOptions s target
      = if c.isPathExists s src1 = .ok true ∧ (c.copyDir s src1 dst).2 = true then
          ⟨s1, .targetBuildSettings target.Name configuration [] ::
            .targetBuildSettings target.Name configuration
              ["-sdk", simulatorNameOf simulatorPlatform
                (c.targetBuildSettings s proj target.Name configuration [])] :: t1,
            .ok (some dst)⟩
        else if c.isPathExists s1 src2 = .ok true ∧ (c.copyDir s1 src2 dst).2 = true then
          ⟨s2, .targetBuildSettings target.Name configuration [] ::
            .targetBuildSettings target.Name configuration
              ["-sdk", simulatorNameOf simulatorPlatform
                (c.targetBuildSettings s proj target.Name configuration [])] :: (t1 ++ t2),
            .ok (some dst)⟩
        else if c.isPathExists s2 src3 = .ok true ∧ (c.copyDir s2 src3 dst).2 = true then
          ⟨s3, .targetBuildSettings target.Name configuration [] ::
            .targetBuildSettings target.Name configuration
              ["-sdk", simulatorNameOf simulatorPlatform
                (c.targetBuildSettings s proj target.Name configuration [])] ::
              (t1 ++ t2 ++ t3),
            .ok (some dst)⟩
        else
          ⟨s3, .targetBuildSettings target.Name configuration [] ::
            .targetBuildSettings target.Name configuration
              ["-sdk", simulatorNameOf simulatorPlatform
                (c.targetBuildSettings s proj target.Name configuration [])] ::
              (t1 ++ t2 ++ t3),
            .error .copyFailed⟩ := by
  rw [exportTarget_run c proj schemeDir configuration simulatorPlatform deployDir
    customOptions s target happ buildSettings buildDir hq hdir]
  simp only [sourceDirsOf, searchAndCopy_cons, ← hsrc1, ← hsrc2, ← hsrc3, ← hdst]
  have hnil : ∀ st : σ, searchAndCopy c target.ProductReference.Path dst st []
      = ⟨st, [], false⟩ := fun _ => rfl
  simp only [hnil]
  by_cases h1 : c.isPathExists s src1 = .ok true
  · simp only [h1, if_true, true_and] at hs1 ht1 ⊢
    cases hc1 : (c.copyDir s src1 dst).2
    · simp only [hc1, Bool.false_eq_true, if_false] at ht1 ⊢
      rw [← hs1]
      by_cases h2 : c.isPathExists s1 src2 = .ok true
      · simp only [h2, if_true, true_and] at hs2 ht2 ⊢
        cases hc2 : (c.copyDir s1 src2 dst).2
        · simp only [hc2, Bool.false_eq_true, if_false] at ht2 ⊢
          rw [← hs2]
          by_cases h3 : c.isPathExists s2 src3 = .ok true
          · simp only [h3, if_true, true_and] at hs3 ht3 ⊢
            cases hc3 : (c.copyDir s2 src3 dst).2 <;>
              simp [hc3, hs3, ht1, ht2, ht3]
          · simp only [h3, if_false, false_and] at hs3 ht3 ⊢
            simp [hs3, ht1, ht2, ht3]
        · simp [hc2, hs2, ht1, ht2]
      · simp only [h2, if_false, false_and] at hs2 ht2 ⊢
        rw [← hs2]
        by_cases h3 : c.isPathExists s2 src3 = .ok true
        · simp only [h3, if_true, true_and] at hs3 ht3 ⊢
          cases hc3 : (c.copyDir s2 src3 dst).2 <;>
            simp [hc3, hs3, ht1, ht2, ht3]
        · simp only [h3, if_false, false_and] at hs3 ht3 ⊢
          simp [hs3, ht1, ht2, ht3]
    · simp [hc1, hs1, ht1]
  · simp only [h1, if_false, false_and] at hs1 ht1 ⊢
    rw [← hs1]
    by_cases h2 : c.isPathExists s1 src2 = .ok true
    · simp only [h2, if_true, true_and] at hs2 ht2 ⊢
      cases hc2 : (c.copyDir s1 src2 dst).2
      · simp only [hc2, Bool.false_eq_true, if_false] at ht2 ⊢
        rw [← hs2]
        by_cases h3 : c.isPathExists s2 src3 = .ok true
        · simp only [h3, if_true, true_and] at hs3 ht3 ⊢
          cases hc3 : (c.copyDir s2 src3 dst).2 <;>
            simp [hc3, hs3, ht1, ht2, ht3]
        · simp only [h3, if_false, false_and] at hs3 ht3 ⊢
          simp [hs3, ht1, ht2, ht3]
      · simp [hc2, hs2, ht1, ht2]
    · simp only [h2, if_false, false_and] at hs2 ht2 ⊢
      rw [← hs2]
      by_cases h3 : c.isPathExists s2 src3 = .ok true
      · simp only [h3, if_true, true_and] at hs3 ht3 ⊢
        cases hc3 : (c.copyDir s2 src3 dst).2 <;>
          simp [hc3, hs3, ht1, ht2, ht3]
      · simp only [h3, if_false, false_and] at hs3 ht3 ⊢
        simp [hs3, ht1, ht2, ht3]

/-- C2: for an application target whose TARGET_BUILD_DIR query succeeds, the
directories searched are `Join(schemeDir, targetDir)`, `schemeDir` and
`Join(Dir(proj.Path), schemeDir)` in this order, where `targetDir` is the part
of TARGET_BUILD_DIR after `Build/` when the split on `Build/` yields two parts
and the raw value otherwise. The loop body consists of the two queries and the
search over these directories. When the target is exported, the destination is
`Join(deployDir, productPath)`, and the search failed on the candidates before
some candidate without a successful copy, found the bundle at that candidate,
copied it from there to the destination, and made no call after that copy.
When the bundle is at the third candidate only and its copy succeeds, the
bundle is copied from the third candidate. In terms of the collaborators
alone: each candidate is probed in the state the candidates before it left
(a failed copy may have changed it), the target is exported from the first
candidate at which the bundle exists and the copy succeeds, with no call
after that copy, and the export fails when there is no such candidate. -/
theorem exportTarget_first_existing_candidate {σ : Type} (c : Collaborators σ) (proj : XcodeProj)
    (schemeDir configuration simulatorPlatform deployDir : String) (customOptions : List String)
    (s : σ) (target : Target) (happ : hasSuffix target.ProductReference.Path ".app" = true)
    (buildSettings : Settings) (buildDir : String)
    (hq : c.targetBuildSettings s proj target.Name configuration
        ["-sdk", simulatorNameOf simulatorPlatform
          (c.targetBuildSettings s proj target.Name configuration [])] = .ok buildSettings)
    (hdir : buildSettings.String "TARGET_BUILD_DIR" = some buildDir) :
    sourceDirsOf proj schemeDir (targetDirOf buildDir)
      = [Join [schemeDir, targetDirOf buildDir], schemeDir, Join [Dir proj.Path, schemeDir]] ∧
    (∀ p0 p1, split buildDir "Build/" = [p0, p1] → targetDirOf buildDir = p1) ∧
    ((split buildDir "Build/").length ≠ 2 → targetDirOf buildDir = buildDir) ∧
    (exportTarget c proj schemeDir configuration simulatorPlatform deployDir customOptions
        s target).trace
      = .targetBuildSettings target.Name configuration [] ::
        .targetBuildSettings target.Name configuration
          ["-sdk", simulatorNameOf simulatorPlatform
            (c.targetBuildSettings s proj target.Name configuration [])] ::
        (searchAndCopy c target.ProductReference.Path
          (Join [deployDir, target.ProductReference.Path]) s
          [Join [schemeDir, targetDirOf buildDir], schemeDir,
            Join [Dir proj.Path, schemeDir]]).trace ∧
    (∀ dst,
      (exportTarget c proj schemeDir configuration simulatorPlatform deployDir customOptions
        s target).result = .ok (some dst) →
      dst = Join [deployDir, target.ProductReference.Path] ∧
      ∃ pre cand post,
        [Join [schemeDir, targetDirOf buildDir], schemeDir, Join [Dir proj.Path, schemeDir]]
          = pre ++ cand :: post ∧
        (searchAndCopy c target.ProductReference.Path dst s pre).result = false ∧
        (∀ e ∈ (searchAndCopy c target.ProductReference.Path dst s pre).trace,
          ∀ source destination, e ≠ .copyDir source destination true) ∧
        c.isPathExists (searchAndCopy c target.ProductReference.Path dst s pre).state
          (Join [cand, target.ProductReference.Path]) = .ok true ∧
        (c.copyDir (searchAndCopy c target.ProductReference.Path dst s pre).state
          (Join [cand, target.ProductReference.Path]) dst).2 = true ∧
        (exportTarget c proj schemeDir configuration simulatorPlatform deployDir customOptions
            s target).trace
          = .targetBuildSettings target.Name configuration [] ::
            .targetBuildSettings target.Name configuration
              ["-sdk", simulatorNameOf simulatorPlatform
                (c.targetBuildSettings s proj target.Name configuration [])] ::
            ((searchAndCopy c target.ProductReference.Path dst s pre).trace ++
              [.isPathExists (Join [cand, target.ProductReference.Path]) true,
                .copyDir (Join [cand, target.ProductReference.Path]) dst true])) ∧
    (c.isPathExists s (Join [Join [schemeDir, targetDirOf buildDir],
        target.ProductReference.Path]) ≠ .ok true →
      c.isPathExists s (Join [schemeDir, target.ProductReference.Path]) ≠ .ok true →
      c.isPathExists s (Join [Join [Dir proj.Path, schemeDir],
        target.ProductReference.Path]) = .ok true →
      (c.copyDir s (Join [Join [Dir proj.Path, schemeDir], target.ProductReference.Path])
        (Join [deployDir, target.ProductReference.Path])).2 = true →
      (exportTarget c proj schemeDir configuration simulatorPlatform deployDir customOptions
          s target).result = .ok (some (Join [deployDir, target.ProductReference.Path])) ∧
      (exportTarget c proj schemeDir configuration simulatorPlatform deployDir customOptions
          s target).trace
        = [.targetBuildSettings target.Name configuration [],
          .targetBuildSettings target.Name configuration
            ["-sdk", simulatorNameOf simulatorPlatform
              (c.targetBuildSettings s proj target.Name configuration [])],
          .isPathExists (Join [Join [schemeDir, targetDirOf buildDir],
            target.ProductReference.Path]) false,
          .isPathExists (Join [schemeDir, target.ProductReference.Path]) false,
          .isPathExists (Join [Join [Dir proj.Path, schemeDir],
            target.ProductReference.Path]) true,
          .copyDir (Join [Join [Dir proj.Path, schemeDir], target.ProductReference.Path])
            (Join [deployDir, target.ProductReference.Path]) true]) ∧
    (∀ (src1 src2 src3 dst : String) (s1 s2 s3 : σ) (t1 t2 t3 : List Event),
      src1 = Join [Join [schemeDir, targetDirOf buildDir], target.ProductReference.Path] →
      src2 = Join [schemeDir, target.ProductReference.Path] →
      src3 = Join [Join [Dir proj.Path, schemeDir], target.ProductReference.Path] →
      dst = Join [deployDir, target.ProductReference.Path] →
      s1 = (if c.isPathExists s src1 = .ok true then (c.copyDir s src1 dst).1 else s) →
      t1 = (if c.isPathExists s src1 = .ok true
        then [.isPathExists src1 true, .copyDir src1 dst (c.copyDir s src1 dst).2]
        else [.isPathExists src1 false]) →
      s2 = (if c.isPathExists s1 src2 = .ok true then (c.copyDir s1 src2 dst).1 else s1) →
      t2 = (if c.isPathExists s1 src2 = .ok true
        then [.isPathExists src2 true, .copyDir src2 dst (c.copyDir s1 src2 dst).2]
        else [.isPathExists src2 false]) →
      s3 = (if c.isPathExists s2 src3 = .ok true then (c.copyDir s2 src3 dst).1 else s2) →
      t3 = (if c.isPathExists s2 src3 = .ok true
        then [.isPathExists src3 true, .copyDir src3 dst (c.copyDir s2 src3 dst).2]
        else [.isPathExists src3 false]) →
      exportTarget c proj schemeDir configuration simulatorPlatform deployDir customOptions
          s target
        = if c.isPathExists s src1 = .ok true ∧ (c.copyDir s src1 dst).2 = true then
            ⟨s1, .targetBuildSettings target.Name configuration [] ::
              .targetBuildSettings target.Name configuration
                ["-sdk", simulatorNameOf simulatorPlatform
                  (c.targetBuildSettings s proj target.Name configuration [])] :: t1,
              .ok (some dst)⟩
          else if c.isPathExists s1 src2 = .ok true ∧ (c.copyDir s1 src2 dst).2 = true then
            ⟨s2, .targetBuildSettings target.Name configuration [] ::
              .targetBuildSettings target.Name configuration
                ["-sdk", simulatorNameOf simulatorPlatform
                  (c.targetBuildSettings s proj target.Name configuration [])] :: (t1 ++ t2),
              .ok (some dst)⟩
          else if c.isPathExists s2 src3 = .ok true ∧ (c.copyDir s2 src3 dst).2 = true then
            ⟨s3, .targetBuildSettings target.Name configuration [] ::
              .targetBuildSettings target.Name configuration
                ["-sdk", simulatorNameOf simulatorPlatform
                  (c.targetBuildSettings s proj target.Name configuration [])] ::
                (t1 ++ t2 ++ t3),
              .ok (some dst)⟩
          else
            ⟨s3, .targetBuildSettings target.Name configuration [] ::
              .targetBuildSettings target.Name configuration
                ["-sdk", simulatorNameOf simulatorPlatform
                  (c.targetBuildSettings s proj target.Name configuration [])] ::
                (t1 ++ t2 ++ t3),
              .error .copyFailed⟩) := by
  have hrun := exportTarget_run c proj schemeDir configuration simulatorPlatform deployDir
    customOptions s target happ buildSettings buildDir hq hdir
  refine ⟨rfl, ?_, ?_, ?_, ?_, ?_, ?_⟩
  case refine_6 =>
    intro src1 src2 src3 dst s1 s2 s3 t1 t2 t3 hsrc1 hsrc2 hsrc3 hdst hs1 ht1 hs2 ht2 hs3 ht3
    exact exportTarget_three_candidates c proj schemeDir configuration simulatorPlatform
      deployDir customOptions s target happ buildSettings buildDir hq hdir src1 src2 src3 dst
      s1 s2 s3 t1 t2 t3 hsrc1 hsrc2 hsrc3 hdst hs1 ht1 hs2 ht2 hs3 ht3
  · intro p0 p1 h
    simp [targetDirOf, h]
  · intro h
    simp [targetDirOf, h]
  · rw [hrun]
    rfl
  · intro dst hres
    rw [hrun] at hres
    simp only at hres
    split at hres
    · rename_i hsearch
      simp only [Except.ok.injEq, Option.some.injEq] at hres
      subst hres
      refine ⟨rfl, ?_⟩
      obtain ⟨pre, cand, post, hd, hf, he, hc, ht⟩ :=
        searchAndCopy_succeeded c _ _ _ s hsearch
      refine ⟨pre, cand, post, hd, hf, searchAndCopy_failed c _ _ pre s hf, he, ?_, ?_⟩
      · rw [hc]
      · rw [hrun]
        simp only [ht]
    · simp at hres
  · intro h1 h2 h3 h4
    rw [hrun]
    have hsearch : searchAndCopy c target.ProductReference.Path
        (Join [deployDir, target.ProductReference.Path]) s
        (sourceDirsOf proj schemeDir (targetDirOf buildDir))
        = ⟨(c.copyDir s (Join [Join [Dir proj.Path, schemeDir], target.ProductReference.Path])
              (Join [deployDir, target.ProductReference.Path])).1,
            [.isPathExists (Join [Join [schemeDir, targetDirOf buildDir],
              target.ProductReference.Path]) false,
            .isPathExists (Join [schemeDir, target.ProductReference.Path]) false,
            .isPathExists (Join [Join [Dir proj.Path, schemeDir],
              target.ProductReference.Path]) true,
            .copyDir (Join [Join [Dir proj.Path, schemeDir], target.ProductReference.Path])
              (Join [deployDir, target.ProductReference.Path]) true], true⟩ := by
      simp only [sourceDirsOf, searchAndCopy, h3, h4, if_true]
    rw [hsearch]
    simp

/-- The search of C2 on the sample project. When the bundle of the application
lies below the directory of the project only, it is copied from the third
candidate. When the bundle lies at the first two candidates and the copy from
the first fails, it is copied from the second and the third is not probed. -/
theorem exportTarget_first_existing_candidate_witness :
    ((exportTarget sampleCollaborators sampleProj "/dd/Build" "Debug" "iOS" "/deploy" []
        ["/src/dd/Build/App.app"] sampleApp).result = .ok (some "/deploy/App.app") ∧
    (exportTarget sampleCollaborators sampleProj "/dd/Build" "Debug" "iOS" "/deploy" []
        ["/src/dd/Build/App.app"] sampleApp).trace
      = [.targetBuildSettings "App" "Debug" [],
        .targetBuildSettings "App" "Debug" ["-sdk", "iphonesimulator"],
        .isPathExists "/dd/Build/Products/Debug-iphonesimulator/App.app" false,
        .isPathExists "/dd/Build/App.app" false,
        .isPathExists "/src/dd/Build/App.app" true,
        .copyDir "/src/dd/Build/App.app" "/deploy/App.app" true]) ∧
    exportTarget copyFailingCollaborators sampleProj "/dd/Build" "Debug" "iOS" "/deploy" []
        ["/dd/Build/Products/Debug-iphonesimulator/App.app", "/dd/Build/App.app"] sampleApp
      = ⟨["/deploy/App.app", "/dd/Build/Products/Debug-iphonesimulator/App.app",
          "/dd/Build/App.app"],
        [.targetBuildSettings "App" "Debug" [],
          .targetBuildSettings "App" "Debug" ["-sdk", "iphonesimulator"],
          .isPathExists "/dd/Build/Products/Debug-iphonesimulator/App.app" true,
          .copyDir "/dd/Build/Products/Debug-iphonesimulator/App.app" "/deploy/App.app" false,
          .isPathExists "/dd/Build/App.app" true,
          .copyDir "/dd/Build/App.app" "/deploy/App.app" true],
        .ok (some "/deploy/App.app")⟩ :=
  ⟨(exportTarget_first_existing_candidate sampleCollaborators sampleProj "/dd/Build" "Debug" "iOS"
      "/deploy" [] ["/src/dd/Build/App.app"] sampleApp (by decide)
      [("SDKROOT", "/Xcode/Platforms/iPhoneOS.platform/SDKs/iPhoneOS.sdk"),
        ("TARGET_BUILD_DIR", "/dd/Build/Products/Debug-iphonesimulator")]
      "/dd/Build/Products/Debug-iphonesimulator" (by decide) (by decide)).2.2.2.2.2.1
      (by decide) (by decide) (by decide) (by decide),
    ((exportTarget_first_existing_candidate copyFailingCollaborators sampleProj "/dd/Build"
      "Debug" "iOS" "/deploy" []
      ["/dd/Build/Products/Debug-iphonesimulator/App.app", "/dd/Build/App.app"] sampleApp
      (by decide)
      [("SDKROOT", "/Xcode/Platforms/iPhoneOS.platform/SDKs/iPhoneOS.sdk"),
        ("TARGET_BUILD_DIR", "/dd/Build/Products/Debug-iphonesimulator")]
      "/dd/Build/Products/Debug-iphonesimulator" (by decide) (by decide)).2.2.2.2.2.2
      "/dd/Build/Products/Debug-iphonesimulator/App.app" "/dd/Build/App.app"
      "/src/dd/Build/App.app" "/deploy/App.app" _ _ _ _ _ _
      (by decide) (by decide) (by decide) (by decide) rfl rfl rfl rfl rfl rfl).trans
      (by decide)⟩

/-! ### The loop over the targets -/

/-- A target that is not an application is skipped without any call. -/
theorem exportTarget_skip {σ : Type} (c : Collaborators σ) (proj : XcodeProj)
    (schemeDir configuration simulatorPlatform deployDir : String) (customOptions : List String)
    (s : σ) (target : Target) (hnot : hasSuffix target.ProductReference.Path ".app" = false) :
    exportTarget c proj schemeDir configuration simulatorPlatform deployDir customOptions s target
      = ⟨s, [], .ok none⟩ := by
  simp [exportTarget, hnot]

/-- An application target is exported to its destination or stops the loop. -/
theorem exportTarget_app_result {σ : Type} (c : Collaborators σ) (proj : XcodeProj)
    (schemeDir configuration simulatorPlatform deployDir : String) (customOptions : List String)
    (s : σ) (target : Target) (happ : hasSuffix target.ProductReference.Path ".app" = true)
    (exported : Option String)
    (h : (exportTarget c proj schemeDir configuration simulatorPlatform deployDir customOptions
      s target).result = .ok exported) :
    exported = some (Join [deployDir, target.ProductReference.Path]) := by
  simp only [exportTarget, happ, Bool.not_true, Bool.false_eq_true, if_false] at h
  split at h
  · simp at h
  · split at h
    · simp at h
    · split at h
      · simpa using h.symm
      · simp at h

/-- Every copy made for a target goes to its destination, and only an
application target has copies. -/
theorem exportTarget_copy {σ : Type} (c : Collaborators σ) (proj : XcodeProj)
    (schemeDir configuration simulatorPlatform deployDir : String) (customOptions : List String)
    (s : σ) (target : Target) :
    ∀ e ∈ (exportTarget c proj schemeDir configuration simulatorPlatform deployDir customOptions
        s target).trace,
      ∀ source dst ok, e = .copyDir source dst ok →
        hasSuffix target.ProductReference.Path ".app" = true ∧
          dst = Join [deployDir, target.ProductReference.Path] := by
  intro e he source dst ok heq
  cases happ : hasSuffix target.ProductReference.Path ".app" with
  | false =>
    rw [exportTarget_skip c proj schemeDir configuration simulatorPlatform deployDir
      customOptions s target happ] at he
    simp at he
  | true =>
    refine ⟨rfl, ?_⟩
    simp only [exportTarget, happ, Bool.not_true, Bool.false_eq_true, if_false] at he
    have hsearch := searchAndCopy_copy_destination c target.ProductReference.Path
      (Join [deployDir, target.ProductReference.Path])
    subst heq
    split at he
    · simp at he
    · split at he
      · simp at he
      · split at he
        · simp only [List.mem_cons, reduceCtorEq, false_or] at he
          exact hsearch _ s _ he source dst ok rfl
        · simp only [List.mem_cons, reduceCtorEq, false_or] at he
          exact hsearch _ s _ he source dst ok rfl

/-- The loop body never reads the options of the caller. -/
theorem exportTarget_customOptions {σ : Type} (c : Collaborators σ) (proj : XcodeProj)
    (schemeDir configuration simulatorPlatform deployDir : String)
    (customOptions other : List String) (s : σ) (target : Target) :
    exportTarget c proj schemeDir configuration simulatorPlatform deployDir customOptions s target
      = exportTarget c proj schemeDir configuration simulatorPlatform deployDir other s target :=
  rfl

/-- The SDK chosen for a target is one of the three simulator SDKs. -/
theorem simulatorNameOf_mem (simulatorPlatform : String) (probe : Except String Settings) :
    simulatorNameOf simulatorPlatform probe = "watchsimulator" ∨
      simulatorNameOf simulatorPlatform probe = "appletvsimulator" ∨
      simulatorNameOf simulatorPlatform probe = "iphonesimulator" := by
  unfold simulatorNameOf
  simp only [watchOSSimName, tvOSSimName, iOSSimName]
  split
  · exact Or.inl rfl
  · split
    · exact Or.inr (Or.inl rfl)
    · exact Or.inr (Or.inr rfl)

/-- Every build-settings query of the loop body is on the target, without
options or with `-sdk` and a simulator SDK. -/
theorem exportTarget_query {σ : Type} (c : Collaborators σ) (proj : XcodeProj)
    (schemeDir configuration simulatorPlatform deployDir : String) (customOptions : List String)
    (s : σ) (target : Target) :
    ∀ e ∈ (exportTarget c proj schemeDir configuration simulatorPlatform deployDir customOptions
        s target).trace,
      (∀ name cfg options, e ≠ .schemeBuildSettings name cfg options) ∧
      ∀ name cfg options, e = .targetBuildSettings name cfg options →
        options = [] ∨ options = ["-sdk", "watchsimulator"] ∨
          options = ["-sdk", "appletvsimulator"] ∨ options = ["-sdk", "iphonesimulator"] := by
  intro e he
  cases happ : hasSuffix target.ProductReference.Path ".app" with
  | false =>
    rw [exportTarget_skip c proj schemeDir configuration simulatorPlatform deployDir
      customOptions s target happ] at he
    simp at he
  | true =>
    obtain ⟨rest, htrace, hrest⟩ := exportTarget_trace c proj schemeDir configuration
      simulatorPlatform deployDir customOptions s target happ
    rw [htrace] at he
    simp only [List.mem_cons] at he
    rcases he with rfl | rfl | he
    · refine ⟨by simp, ?_⟩
      intro name cfg options h
      simp only [Event.targetBuildSettings.injEq] at h
      exact Or.inl h.2.2.symm
    · refine ⟨by simp, ?_⟩
      intro name cfg options h
      simp only [Event.targetBuildSettings.injEq] at h
      rw [← h.2.2]
      rcases simulatorNameOf_mem simulatorPlatform
        (c.targetBuildSettings s proj target.Name configuration []) with h1 | h1 | h1 <;>
        simp [h1]
    · refine ⟨fun name cfg options => (hrest e he name cfg options).2, ?_⟩
      intro name cfg options h
      exact absurd h (hrest e he name cfg options).1

theorem exportTargets_nil {σ : Type} (c : Collaborators σ) (proj : XcodeProj)
    (schemeDir configuration simulatorPlatform deployDir : String) (customOptions : List String)
    (s : σ) :
    exportTargets c proj schemeDir configuration simulatorPlatform deployDir customOptions s []
      = ⟨s, [], .ok []⟩ := rfl

/-- The loop stops at a target whose body returns an error. -/
theorem exportTargets_cons_error {σ : Type} (c : Collaborators σ) (proj : XcodeProj)
    (schemeDir configuration simulatorPlatform deployDir : String) (customOptions : List String)
    (s : σ) (target : Target) (rest : List Target) (err : Failure)
    (h : (exportTarget c proj schemeDir configuration simulatorPlatform deployDir customOptions
      s target).result = .error err) :
    exportTargets c proj schemeDir configuration simulatorPlatform deployDir customOptions s
        (target :: rest)
      = ⟨(exportTarget c proj schemeDir configuration simulatorPlatform deployDir customOptions
            s target).state,
          (exportTarget c proj schemeDir configuration simulatorPlatform deployDir customOptions
            s target).trace, .error err⟩ := by
  simp only [exportTargets, h]

/-- The loop goes on after a target whose body returns without error. -/
theorem exportTargets_cons_ok {σ : Type} (c : Collaborators σ) (proj : XcodeProj)
    (schemeDir configuration simulatorPlatform deployDir : String) (customOptions : List String)
    (s : σ) (target : Target) (rest : List Target) (exported : Option String)
    (h : (exportTarget c proj schemeDir configuration simulatorPlatform deployDir customOptions
      s target).result = .ok exported) :
    exportTargets c proj schemeDir configuration simulatorPlatform deployDir customOptions s
        (target :: rest)
      = ⟨(exportTargets c proj schemeDir configuration simulatorPlatform deployDir customOptions
            (exportTarget c proj schemeDir configuration simulatorPlatform deployDir
              customOptions s target).state rest).state,
          (exportTarget c proj schemeDir configuration simulatorPlatform deployDir customOptions
              s target).trace ++
            (exportTargets c proj schemeDir configuration simulatorPlatform deployDir
              customOptions (exportTarget c proj schemeDir configuration simulatorPlatform
                deployDir customOptions s target).state rest).trace,
          match (exportTargets c proj schemeDir configuration simulatorPlatform deployDir
              customOptions (exportTarget c proj schemeDir configuration simulatorPlatform
                deployDir customOptions s target).state rest).result with
          | .error err => .error err
          | .ok exportedArtifacts => .ok (exported.toList ++ exportedArtifacts)⟩ := by
  simp only [exportTargets, h]
  split <;> rename_i hr <;> simp [hr]

/-- The loop passes over a target that is not an application. -/
theorem exportTargets_cons_skip {σ : Type} (c : Collaborators σ) (proj : XcodeProj)
    (schemeDir configuration simulatorPlatform deployDir : String) (customOptions : List String)
    (s : σ) (target : Target) (rest : List Target)
    (hnot : hasSuffix target.ProductReference.Path ".app" = false) :
    exportTargets c proj schemeDir configuration simulatorPlatform deployDir customOptions s
        (target :: rest)
      = exportTargets c proj schemeDir configuration simulatorPlatform deployDir customOptions s
        rest := by
  have hskip := exportTarget_skip c proj schemeDir configuration simulatorPlatform deployDir
    customOptions s target hnot
  rw [exportTargets_cons_ok c proj schemeDir configuration simulatorPlatform deployDir
    customOptions s target rest none (by rw [hskip])]
  rw [hskip]
  simp only [List.nil_append, Option.toList]
  generalize exportTargets c proj schemeDir configuration simulatorPlatform deployDir
    customOptions s rest = rs
  obtain ⟨st, tr, res⟩ := rs
  cases res <;> rfl

/-- The loop over the targets is the loop over the application targets among
them. -/
theorem exportTargets_filter {σ : Type} (c : Collaborators σ) (proj : XcodeProj)
    (schemeDir configuration simulatorPlatform deployDir : String) (customOptions : List String)
    (s : σ) (targets : List Target) :
    exportTargets c proj schemeDir configuration simulatorPlatform deployDir customOptions s
        targets
      = exportTargets c proj schemeDir configuration simulatorPlatform deployDir customOptions s
        (targets.filter (fun t => hasSuffix t.ProductReference.Path ".app")) := by
  induction targets generalizing s with
  | nil => rfl
  | cons t ts ih =>
    cases happ : hasSuffix t.ProductReference.Path ".app" with
    | false =>
      rw [exportTargets_cons_skip c proj schemeDir configuration simulatorPlatform deployDir
        customOptions s t ts happ, List.filter_cons_of_neg (by simp [happ])]
      exact ih s
    | true =>
      rw [List.filter_cons_of_pos (by simp [happ])]
      cases hres : (exportTarget c proj schemeDir configuration simulatorPlatform deployDir
          customOptions s t).result with
      | error err =>
        rw [exportTargets_cons_error _ _ _ _ _ _ _ _ _ _ _ hres,
          exportTargets_cons_error _ _ _ _ _ _ _ _ _ _ _ hres]
      | ok exported =>
        rw [exportTargets_cons_ok _ _ _ _ _ _ _ _ _ _ _ hres,
          exportTargets_cons_ok _ _ _ _ _ _ _ _ _ _ _ hres, ih]

/-- On success the loop returns the destinations of the application targets,
in the order of the targets. -/
theorem exportTargets_paths {σ : Type} (c : Collaborators σ) (proj : XcodeProj)
    (schemeDir configuration simulatorPlatform deployDir : String) (customOptions : List String)
    (s : σ) (targets : List Target) (paths : List String)
    (h : (exportTargets c proj schemeDir configuration simulatorPlatform deployDir customOptions
      s targets).result = .ok paths) :
    paths = (targets.filter (fun t => hasSuffix t.ProductReference.Path ".app")).map
      (fun t => Join [deployDir, t.ProductReference.Path]) := by
  induction targets generalizing s paths with
  | nil =>
    simp only [exportTargets_nil, Except.ok.injEq] at h
    simp [← h]
  | cons t ts ih =>
    cases happ : hasSuffix t.ProductReference.Path ".app" with
    | false =>
      rw [exportTargets_cons_skip c proj schemeDir configuration simulatorPlatform deployDir
        customOptions s t ts happ] at h
      rw [List.filter_cons_of_neg (by simp [happ])]
      exact ih s paths h
    | true =>
      rw [List.filter_cons_of_pos (by simp [happ])]
      cases hres : (exportTarget c proj schemeDir configuration simulatorPlatform deployDir
          customOptions s t).result with
      | error err =>
        rw [exportTargets_cons_error _ _ _ _ _ _ _ _ _ _ _ hres] at h
        simp at h
      | ok exported =>
        rw [exportTargets_cons_ok _ _ _ _ _ _ _ _ _ _ _ hres] at h
        have hexp := exportTarget_app_result c proj schemeDir configuration simulatorPlatform
          deployDir customOptions s t happ exported hres
        subst hexp
        simp only at h
        split at h
        · simp at h
        · rename_i rest hrest
          simp only [Option.toList, List.singleton_append, Except.ok.injEq] at h
          rw [← h, ih _ rest hrest]
          rfl

/-- Every copy of the loop goes to the destination of an application target
among the targets. -/
theorem exportTargets_copy {σ : Type} (c : Collaborators σ) (proj : XcodeProj)
    (schemeDir configuration simulatorPlatform deployDir : String) (customOptions : List String)
    (s : σ) (targets : List Target) :
    ∀ e ∈ (exportTargets c proj schemeDir configuration simulatorPlatform deployDir
        customOptions s targets).trace,
      ∀ source dst ok, e = .copyDir source dst ok →
        ∃ t ∈ targets, hasSuffix t.ProductReference.Path ".app" = true ∧
          dst = Join [deployDir, t.ProductReference.Path] := by
  induction targets generalizing s with
  | nil => simp [exportTargets_nil]
  | cons t ts ih =>
    intro e he source dst ok heq
    have hbody := exportTarget_copy c proj schemeDir configuration simulatorPlatform deployDir
      customOptions s t
    cases hres : (exportTarget c proj schemeDir configuration simulatorPlatform deployDir
        customOptions s t).result with
    | error err =>
      rw [exportTargets_cons_error _ _ _ _ _ _ _ _ _ _ _ hres] at he
      exact ⟨t, List.mem_cons_self _ _, hbody e he source dst ok heq⟩
    | ok exported =>
      rw [exportTargets_cons_ok _ _ _ _ _ _ _ _ _ _ _ hres] at he
      simp only [List.mem_append] at he
      rcases he with he | he
      · exact ⟨t, List.mem_cons_self _ _, hbody e he source dst ok heq⟩
      · obtain ⟨u, hu, hprop⟩ := ih _ e he source dst ok heq
        exact ⟨u, List.mem_cons_of_mem _ hu, hprop⟩

/-- Every build-settings query of the loop is a query on a target, without
options or with `-sdk` and a simulator SDK. -/
theorem exportTargets_query {σ : Type} (c : Collaborators σ) (proj : XcodeProj)
    (schemeDir configuration simulatorPlatform deployDir : String) (customOptions : List String)
    (s : σ) (targets : List Target) :
    ∀ e ∈ (exportTargets c proj schemeDir configuration simulatorPlatform deployDir
        customOptions s targets).trace,
      (∀ name cfg options, e ≠ .schemeBuildSettings name cfg options) ∧
      ∀ name cfg options, e = .targetBuildSettings name cfg options →
        options = [] ∨ options = ["-sdk", "watchsimulator"] ∨
          options = ["-sdk", "appletvsimulator"] ∨ options = ["-sdk", "iphonesimulator"] := by
  induction targets generalizing s with
  | nil => simp [exportTargets_nil]
  | cons t ts ih =>
    intro e he
    have hbody := exportTarget_query c proj schemeDir configuration simulatorPlatform deployDir
      customOptions s t
    cases hres : (exportTarget c proj schemeDir configuration simulatorPlatform deployDir
        customOptions s t).result with
    | error err =>
      rw [exportTargets_cons_error _ _ _ _ _ _ _ _ _ _ _ hres] at he
      exact hbody e he
    | ok exported =>
      rw [exportTargets_cons_ok _ _ _ _ _ _ _ _ _ _ _ hres] at he
      simp only [List.mem_append] at he
      rcases he with he | he
      · exact hbody e he
      · exact ih _ e he

/-- The loop never reads the options of the caller. -/
theorem exportTargets_customOptions {σ : Type} (c : Collaborators σ) (proj : XcodeProj)
    (schemeDir configuration simulatorPlatform deployDir : String)
    (customOptions other : List String) (s : σ) (targets : List Target) :
    exportTargets c proj schemeDir configuration simulatorPlatform deployDir customOptions s
        targets
      = exportTargets c proj schemeDir configuration simulatorPlatform deployDir other s
        targets := by
  induction targets generalizing s with
  | nil => rfl
  | cons t ts ih =>
    simp only [exportTargets]
    rw [exportTarget_customOptions c proj schemeDir configuration simulatorPlatform deployDir
      customOptions other s t]
    simp only [ih]

/-- The loop over a list of targets that ends in an error is the loop over
any longer list that starts with it. -/
theorem exportTargets_append_error {σ : Type} (c : Collaborators σ) (proj : XcodeProj)
    (schemeDir configuration simulatorPlatform deployDir : String) (customOptions : List String)
    (s : σ) (pre post : List Target) (err : Failure)
    (h : (exportTargets c proj schemeDir configuration simulatorPlatform deployDir customOptions
      s pre).result = .error err) :
    exportTargets c proj schemeDir configuration simulatorPlatform deployDir customOptions s
        (pre ++ post)
      = exportTargets c proj schemeDir configuration simulatorPlatform deployDir customOptions s
        pre := by
  induction pre generalizing s err with
  | nil => simp [exportTargets_nil] at h
  | cons t ts ih =>
    cases hres : (exportTarget c proj schemeDir configuration simulatorPlatform deployDir
        customOptions s t).result with
    | error e1 =>
      rw [List.cons_append, exportTargets_cons_error _ _ _ _ _ _ _ _ _ _ _ hres,
        exportTargets_cons_error _ _ _ _ _ _ _ _ _ _ _ hres]
    | ok exported =>
      rw [exportTargets_cons_ok _ _ _ _ _ _ _ _ _ _ _ hres] at h
      simp only at h
      split at h
      · rename_i e2 hrest
        rw [List.cons_append, exportTargets_cons_ok _ _ _ _ _ _ _ _ _ _ _ hres,
          exportTargets_cons_ok _ _ _ _ _ _ _ _ _ _ _ hres, ih _ e2 hrest]
      · simp at h

/-- The loop over a list of targets that ends without error goes on with
the targets after them: it ends in the state, and with the result, of the
loop over those, up to the artifacts already exported. -/
theorem exportTargets_append_ok {σ : Type} (c : Collaborators σ) (proj : XcodeProj)
    (schemeDir configuration simulatorPlatform deployDir : String) (customOptions : List String)
    (s : σ) (pre post : List Target) (exported : List String)
    (h : (exportTargets c proj schemeDir configuration simulatorPlatform deployDir customOptions
      s pre).result = .ok exported) :
    (exportTargets c proj schemeDir configuration simulatorPlatform deployDir customOptions s
        (pre ++ post)).state
      = (exportTargets c proj schemeDir configuration simulatorPlatform deployDir customOptions
          (exportTargets c proj schemeDir configuration simulatorPlatform deployDir
            customOptions s pre).state post).state ∧
    (exportTargets c proj schemeDir configuration simulatorPlatform deployDir customOptions s
        (pre ++ post)).trace
      = (exportTargets c proj schemeDir configuration simulatorPlatform deployDir customOptions
          s pre).trace ++
        (exportTargets c proj schemeDir configuration simulatorPlatform deployDir customOptions
          (exportTargets c proj schemeDir configuration simulatorPlatform deployDir
            customOptions s pre).state post).trace ∧
    (exportTargets c proj schemeDir configuration simulatorPlatform deployDir customOptions s
        (pre ++ post)).result
      = match (exportTargets c proj schemeDir configuration simulatorPlatform deployDir
          customOptions (exportTargets c proj schemeDir configuration simulatorPlatform deployDir
            customOptions s pre).state post).result with
        | .error err => .error err
        | .ok exportedArtifacts => .ok (exported ++ exportedArtifacts) := by
  induction pre generalizing s exported with
  | nil =>
    simp only [exportTargets_nil, Except.ok.injEq] at h
    subst h
    simp only [List.nil_append, exportTargets_nil, true_and]
    split <;> rename_i hr <;> simp [hr]
  | cons t ts ih =>
    cases hres : (exportTarget c proj schemeDir configuration simulatorPlatform deployDir
        customOptions s t).result with
    | error e1 =>
      rw [exportTargets_cons_error _ _ _ _ _ _ _ _ _ _ _ hres] at h
      simp at h
    | ok out =>
      rw [exportTargets_cons_ok _ _ _ _ _ _ _ _ _ _ _ hres] at h
      simp only at h
      split at h
      · simp at h
      · rename_i rest hrest
        simp only [Except.ok.injEq] at h
        obtain ⟨h1, h2, h3⟩ := ih _ rest hrest
        rw [List.cons_append, exportTargets_cons_ok _ _ _ _ _ _ _ _ _ _ _ hres,
          exportTargets_cons_ok _ _ _ _ _ _ _ _ _ _ _ hres]
        refine ⟨h1, ?_, ?_⟩
        · simp only [h2, List.append_assoc]
        · simp only [h3, ← h]
          generalize (exportTargets c proj schemeDir configuration simulatorPlatform deployDir
            customOptions _ post).result = inner
          cases inner <;> simp

/-- An application target whose bundle is at none of its candidate locations
stops the loop with an error, without a copy and without a change of state. -/
theorem exportTarget_missing {σ : Type} (c : Collaborators σ) (proj : XcodeProj)
    (schemeDir configuration simulatorPlatform deployDir : String) (customOptions : List String)
    (s : σ) (target : Target) (happ : hasSuffix target.ProductReference.Path ".app" = true)
    (hmiss : ∀ buildSettings buildDir,
      c.targetBuildSettings s proj target.Name configuration
        ["-sdk", simulatorNameOf simulatorPlatform
          (c.targetBuildSettings s proj target.Name configuration [])] = .ok buildSettings →
      buildSettings.String "TARGET_BUILD_DIR" = some buildDir →
      ∀ dir ∈ sourceDirsOf proj schemeDir (targetDirOf buildDir),
        c.isPathExists s (Join [dir, target.ProductReference.Path]) ≠ .ok true) :
    ∃ err extra,
      exportTarget c proj schemeDir configuration simulatorPlatform deployDir customOptions
        s target = ⟨s, extra, .error err⟩ ∧
      ∀ e ∈ extra, ∀ source dst ok, e ≠ .copyDir source dst ok := by
  cases hq : c.targetBuildSettings s proj target.Name configuration
      ["-sdk", simulatorNameOf simulatorPlatform
        (c.targetBuildSettings s proj target.Name configuration [])] with
  | error err =>
    refine ⟨.targetBuildSettings err, [.targetBuildSettings target.Name configuration [],
      .targetBuildSettings target.Name configuration
        ["-sdk", simulatorNameOf simulatorPlatform
          (c.targetBuildSettings s proj target.Name configuration [])]], ?_, ?_⟩
    · simp only [exportTarget, happ, Bool.not_true, Bool.false_eq_true, if_false, hq]
    · simp
  | ok buildSettings =>
    cases hdir : buildSettings.String "TARGET_BUILD_DIR" with
    | none =>
      refine ⟨.targetBuildDir target.Name, [.targetBuildSettings target.Name configuration [],
      .targetBuildSettings target.Name configuration
        ["-sdk", simulatorNameOf simulatorPlatform
          (c.targetBuildSettings s proj target.Name configuration [])]], ?_, ?_⟩
      · simp only [exportTarget, happ, Bool.not_true, Bool.false_eq_true, if_false, hq, hdir]
      · simp
    | some buildDir =>
      have hsearch := searchAndCopy_missing c target.ProductReference.Path
        (Join [deployDir, target.ProductReference.Path]) _ s (hmiss buildSettings buildDir hq hdir)
      refine ⟨.copyFailed, .targetBuildSettings target.Name configuration [] ::
        .targetBuildSettings target.Name configuration
          ["-sdk", simulatorNameOf simulatorPlatform
            (c.targetBuildSettings s proj target.Name configuration [])] ::
        (sourceDirsOf proj schemeDir (targetDirOf buildDir)).map
          (fun dir => .isPathExists (Join [dir, target.ProductReference.Path]) false), ?_, ?_⟩
      · rw [exportTarget_run c proj schemeDir configuration simulatorPlatform deployDir
          customOptions s target happ buildSettings buildDir hq hdir, hsearch]
        simp only [Bool.false_eq_true, if_false]
      · intro e he source dst ok
        simp only [List.mem_cons, List.mem_map] at he
        rcases he with rfl | rfl | ⟨dir, _, rfl⟩ <;> simp

/-! ### The export -/

/-- C4: a target whose product path does not end in `.app` is passed over by
the loop of `exportArtifacts` without any call and without an exported path,
whatever the state of the filesystem; the export is the loop over the
application targets of the sequence alone, every copy it makes goes to
`Join(deployDir, productPath)` of an application target of the sequence, and
on success the returned list is `Join(deployDir, productPath)` for the
application targets of the sequence, in the order of the sequence. -/
theorem exportArtifacts_skips_non_app {σ : Type} (c : Collaborators σ) (s : σ) (proj : XcodeProj)
    (scheme schemeBuildDir configuration simulatorPlatform deployDir : String)
    (customOptions : List String) (mainTarget : Target)
    (hmain : mainTargetOfScheme proj scheme = .ok mainTarget) :
    (∀ (state : σ) (target : Target), hasSuffix target.ProductReference.Path ".app" = false →
      exportTarget c proj (schemeDirOf schemeBuildDir) configuration simulatorPlatform deployDir
        customOptions state target = ⟨state, [], .ok none⟩) ∧
    exportArtifacts c s proj scheme schemeBuildDir configuration simulatorPlatform deployDir
        customOptions
      = exportTargets c proj (schemeDirOf schemeBuildDir) configuration simulatorPlatform
          deployDir customOptions s
          ((exportSequence c mainTarget).filter
            (fun t => hasSuffix t.ProductReference.Path ".app")) ∧
    (∀ e ∈ (exportArtifacts c s proj scheme schemeBuildDir configuration simulatorPlatform
        deployDir customOptions).trace,
      ∀ source dst ok, e = .copyDir source dst ok →
        ∃ t ∈ exportSequence c mainTarget, hasSuffix t.ProductReference.Path ".app" = true ∧
          dst = Join [deployDir, t.ProductReference.Path]) ∧
    (∀ paths,
      (exportArtifacts c s proj scheme schemeBuildDir configuration simulatorPlatform deployDir
        customOptions).result = .ok paths →
      paths = ((exportSequence c mainTarget).filter
          (fun t => hasSuffix t.ProductReference.Path ".app")).map
        (fun t => Join [deployDir, t.ProductReference.Path])) := by
  have hrun : exportArtifacts c s proj scheme schemeBuildDir configuration simulatorPlatform
      deployDir customOptions
      = exportTargets c proj (schemeDirOf schemeBuildDir) configuration simulatorPlatform
          deployDir customOptions s (exportSequence c mainTarget) := by
    simp only [exportArtifacts, hmain]
  refine ⟨?_, ?_, ?_, ?_⟩
  · intro state target hnot
    exact exportTarget_skip c proj _ configuration simulatorPlatform deployDir customOptions
      state target hnot
  · rw [hrun]
    exact exportTargets_filter c proj _ configuration simulatorPlatform deployDir customOptions
      s _
  · rw [hrun]
    exact exportTargets_copy c proj _ configuration simulatorPlatform deployDir customOptions
      s _
  · intro paths h
    rw [hrun] at h
    exact exportTargets_paths c proj _ configuration simulatorPlatform deployDir customOptions
      s _ paths h

/-- The export of C4 on the sample project: the library among the dependent
targets contributes no path. -/
theorem exportArtifacts_skips_non_app_witness :
    ["/deploy/App.app", "/deploy/Watch.app"]
      = ((exportSequence sampleCollaborators sampleApp).filter
          (fun t => hasSuffix t.ProductReference.Path ".app")).map
        (fun t => Join ["/deploy", t.ProductReference.Path]) :=
  (exportArtifacts_skips_non_app sampleCollaborators sampleFiles sampleProj "App"
    "/dd/Build/Products/Debug-iphonesimulator" "Debug" "iOS" "/deploy" [] sampleApp
    (by decide)).2.2.2 ["/deploy/App.app", "/deploy/Watch.app"] (by decide)

/-- C3 as stated fails: on the sample project with the bundle of the watch
application missing, the export returns an error after it has copied the
bundle of the application into the deploy directory, where it stays. -/
theorem exportArtifacts_copies_before_failure :
    (exportArtifacts sampleCollaborators ["/dd/Build/Products/Debug-iphonesimulator/App.app"]
        sampleProj "App" "/dd/Build/Products/Debug-iphonesimulator" "Debug" "iOS" "/deploy"
        []).result = .error .copyFailed ∧
    (exportArtifacts sampleCollaborators ["/dd/Build/Products/Debug-iphonesimulator/App.app"]
        sampleProj "App" "/dd/Build/Products/Debug-iphonesimulator" "Debug" "iOS" "/deploy"
        []).trace
      = [.targetBuildSettings "App" "Debug" [],
        .targetBuildSettings "App" "Debug" ["-sdk", "iphonesimulator"],
        .isPathExists "/dd/Build/Products/Debug-iphonesimulator/App.app" true,
        .copyDir "/dd/Build/Products/Debug-iphonesimulator/App.app" "/deploy/App.app" true,
        .targetBuildSettings "Watch" "Debug" [],
        .targetBuildSettings "Watch" "Debug" ["-sdk", "watchsimulator"],
        .isPathExists "/dd/Build/Products/Debug-watchsimulator/Watch.app" false,
        .isPathExists "/dd/Build/Watch.app" false,
        .isPathExists "/src/dd/Build/Watch.app" false] ∧
    (exportArtifacts sampleCollaborators ["/dd/Build/Products/Debug-iphonesimulator/App.app"]
        sampleProj "App" "/dd/Build/Products/Debug-iphonesimulator" "Debug" "iOS" "/deploy"
        []).state
      = ["/deploy/App.app", "/dd/Build/Products/Debug-iphonesimulator/App.app"] := by
  decide

/-- C3, amended: when an application target of the export sequence has its
bundle at none of its three candidate locations in the state the loop reaches
it in, `exportArtifacts` returns an error and no exported paths; it ends in
the state the loop over the earlier targets ended in, and after the calls of
that loop it makes no copy, neither for this target nor for a later one. -/
theorem exportArtifacts_missing_bundle {σ : Type} (c : Collaborators σ) (s : σ)
    (proj : XcodeProj) (scheme schemeBuildDir configuration simulatorPlatform deployDir : String)
    (customOptions : List String) (mainTarget target : Target) (pre post : List Target)
    (hmain : mainTargetOfScheme proj scheme = .ok mainTarget)
    (hseq : exportSequence c mainTarget = pre ++ target :: post)
    (happ : hasSuffix target.ProductReference.Path ".app" = true)
    (hmiss : ∀ buildSettings buildDir,
      c.targetBuildSettings
        (exportTargets c proj (schemeDirOf schemeBuildDir) configuration simulatorPlatform
          deployDir customOptions s pre).state proj target.Name configuration
        ["-sdk", simulatorNameOf simulatorPlatform
          (c.targetBuildSettings
            (exportTargets c proj (schemeDirOf schemeBuildDir) configuration simulatorPlatform
              deployDir customOptions s pre).state proj target.Name configuration [])]
        = .ok buildSettings →
      buildSettings.String "TARGET_BUILD_DIR" = some buildDir →
      ∀ dir ∈ [Join [schemeDirOf schemeBuildDir, targetDirOf buildDir],
          schemeDirOf schemeBuildDir, Join [Dir proj.Path, schemeDirOf schemeBuildDir]],
        c.isPathExists
          (exportTargets c proj (schemeDirOf schemeBuildDir) configuration simulatorPlatform
            deployDir customOptions s pre).state
          (Join [dir, target.ProductReference.Path]) ≠ .ok true) :
    (∃ err,
      (exportArtifacts c s proj scheme schemeBuildDir configuration simulatorPlatform deployDir
        customOptions).result = .error err) ∧
    (exportArtifacts c s proj scheme schemeBuildDir configuration simulatorPlatform deployDir
        customOptions).state
      = (exportTargets c proj (schemeDirOf schemeBuildDir) configuration simulatorPlatform
          deployDir customOptions s pre).state ∧
    ∃ extra,
      (exportArtifacts c s proj scheme schemeBuildDir configuration simulatorPlatform deployDir
          customOptions).trace
        = (exportTargets c proj (schemeDirOf schemeBuildDir) configuration simulatorPlatform
            deployDir customOptions s pre).trace ++ extra ∧
      ∀ e ∈ extra, ∀ source dst ok, e ≠ .copyDir source dst ok := by
  have hrun : exportArtifacts c s proj scheme schemeBuildDir configuration simulatorPlatform
      deployDir customOptions
      = exportTargets c proj (schemeDirOf schemeBuildDir) configuration simulatorPlatform
          deployDir customOptions s (pre ++ target :: post) := by
    simp only [exportArtifacts, hmain, hseq]
  rw [hrun]
  cases hpre : (exportTargets c proj (schemeDirOf schemeBuildDir) configuration
      simulatorPlatform deployDir customOptions s pre).result with
  | error err =>
    rw [exportTargets_append_error _ _ _ _ _ _ _ _ _ _ _ hpre]
    exact ⟨⟨err, hpre⟩, rfl, [], by simp, by simp⟩
  | ok exported =>
    obtain ⟨h1, h2, h3⟩ := exportTargets_append_ok c proj (schemeDirOf schemeBuildDir)
      configuration simulatorPlatform deployDir customOptions s pre (target :: post) exported
      hpre
    obtain ⟨err, extra, hbody, hextra⟩ := exportTarget_missing c proj
      (schemeDirOf schemeBuildDir) configuration simulatorPlatform deployDir customOptions
      (exportTargets c proj (schemeDirOf schemeBuildDir) configuration simulatorPlatform
        deployDir customOptions s pre).state target happ hmiss
    have hstop := exportTargets_cons_error c proj (schemeDirOf schemeBuildDir) configuration
      simulatorPlatform deployDir customOptions
      (exportTargets c proj (schemeDirOf schemeBuildDir) configuration simulatorPlatform
        deployDir customOptions s pre).state target post err (by rw [hbody])
    rw [hbody] at hstop
    rw [hstop] at h1 h2 h3
    exact ⟨⟨err, h3⟩, h1, extra, h2, hextra⟩

/-- The failure of C3 on the sample project with the bundle of the watch
application missing: an error, and the state left by the export of the
application. -/
theorem exportArtifacts_missing_bundle_witness :
    (∃ err,
      (exportArtifacts sampleCollaborators ["/dd/Build/Products/Debug-iphonesimulator/App.app"]
        sampleProj "App" "/dd/Build/Products/Debug-iphonesimulator" "Debug" "iOS" "/deploy"
        []).result = .error err) ∧
    (exportArtifacts sampleCollaborators ["/dd/Build/Products/Debug-iphonesimulator/App.app"]
        sampleProj "App" "/dd/Build/Products/Debug-iphonesimulator" "Debug" "iOS" "/deploy"
        []).state
      = (exportTargets sampleCollaborators sampleProj
          (schemeDirOf "/dd/Build/Products/Debug-iphonesimulator") "Debug" "iOS" "/deploy" []
          ["/dd/Build/Products/Debug-iphonesimulator/App.app"] [sampleApp]).state :=
  have h := exportArtifacts_missing_bundle sampleCollaborators
    ["/dd/Build/Products/Debug-iphonesimulator/App.app"] sampleProj "App"
    "/dd/Build/Products/Debug-iphonesimulator" "Debug" "iOS" "/deploy" [] sampleApp sampleWatch
    [sampleApp] [sampleLib] (by decide) (by decide) (by decide)
    (by
      intro buildSettings buildDir hq hdir
      have h0 : buildSettings
          = [("SDKROOT", "/Xcode/Platforms/WatchOS.platform/SDKs/WatchOS.sdk"),
            ("TARGET_BUILD_DIR", "/dd/Build/Products/Debug-watchsimulator")] :=
        (Except.ok.inj hq).symm
      subst h0
      have h1 : buildDir = "/dd/Build/Products/Debug-watchsimulator" :=
        (Option.some.inj hdir).symm
      subst h1
      decide)
  ⟨h.1, h.2.1⟩

/-- C8 as stated fails: the export of the sample project called with the
options `-arch x86_64` queries the settings of the application once without
options and once with `-sdk iphonesimulator`; neither query holds the options
of the caller. -/
theorem exportArtifacts_drops_customOptions :
    ¬ ∀ e ∈ (exportArtifacts sampleCollaborators sampleFiles sampleProj "App"
        "/dd/Build/Products/Debug-iphonesimulator" "Debug" "iOS" "/deploy"
        ["-arch", "x86_64"]).trace,
      ∀ name cfg options, e = .targetBuildSettings name cfg options →
        ["-arch", "x86_64"] <:+: options := by
  intro h
  have h1 := h (.targetBuildSettings "App" "Debug" ["-sdk", "iphonesimulator"]) (by decide)
    "App" "Debug" ["-sdk", "iphonesimulator"] rfl
  revert h1
  decide

/-- The calls of `buildTargetDirForScheme`: none, the query on the main
target, the opening of the workspace, or the opening followed by the query on
the scheme. -/
theorem buildTargetDirForScheme_trace_cases {σ : Type} (c : Collaborators σ) (s : σ)
    (proj : XcodeProj) (projectPath scheme configuration : String)
    (customOptions : List String) :
    (buildTargetDirForScheme c s proj projectPath scheme configuration customOptions).trace = [] ∨
    (∃ name,
      (buildTargetDirForScheme c s proj projectPath scheme configuration customOptions).trace
        = [.targetBuildSettings name configuration customOptions]) ∨
    (buildTargetDirForScheme c s proj projectPath scheme configuration customOptions).trace
      = [.openWorkspace projectPath] ∨
    (buildTargetDirForScheme c s proj projectPath scheme configuration customOptions).trace
      = [.openWorkspace projectPath, .schemeBuildSettings scheme configuration customOptions] := by
  simp only [buildTargetDirForScheme]
  repeat' split
  all_goals simp

/-- C8, amended: every build-settings query of `buildTargetDirForScheme` has
the options of the caller as its options, and it makes the query on the main
target for a project path and the query on the scheme for a workspace path
that opens. `exportArtifacts` does not depend on the options of the caller:
its SDKROOT query is made without options and its TARGET_BUILD_DIR query with
`-sdk` and the simulator SDK chosen for the target. -/
theorem customOptions_of_settings_queries {σ : Type} (c : Collaborators σ) (s : σ)
    (proj : XcodeProj)
    (projectPath scheme schemeBuildDir configuration simulatorPlatform deployDir : String)
    (customOptions : List String) :
    (∀ e ∈ (buildTargetDirForScheme c s proj projectPath scheme configuration
        customOptions).trace,
      ∀ name cfg options,
        e = .targetBuildSettings name cfg options ∨ e = .schemeBuildSettings name cfg options →
        options = customOptions) ∧
    (∀ mainTarget, IsXcodeProj projectPath = true →
      mainTargetOfScheme proj scheme = .ok mainTarget →
      (buildTargetDirForScheme c s proj projectPath scheme configuration customOptions).trace
        = [.targetBuildSettings mainTarget.Name configuration customOptions]) ∧
    (∀ workspace, IsXcodeProj projectPath = false → IsWorkspace projectPath = true →
      c.openWorkspace s projectPath = .ok workspace →
      (buildTargetDirForScheme c s proj projectPath scheme configuration customOptions).trace
        = [.openWorkspace projectPath,
          .schemeBuildSettings scheme configuration customOptions]) ∧
    (∀ other,
      exportArtifacts c s proj scheme schemeBuildDir configuration simulatorPlatform deployDir
          customOptions
        = exportArtifacts c s proj scheme schemeBuildDir configuration simulatorPlatform
          deployDir other) ∧
    (∀ e ∈ (exportArtifacts c s proj scheme schemeBuildDir configuration simulatorPlatform
        deployDir customOptions).trace,
      (∀ name cfg options, e ≠ .schemeBuildSettings name cfg options) ∧
      ∀ name cfg options, e = .targetBuildSettings name cfg options →
        options = [] ∨ options = ["-sdk", "watchsimulator"] ∨
          options = ["-sdk", "appletvsimulator"] ∨ options = ["-sdk", "iphonesimulator"]) := by
  refine ⟨?_, ?_, ?_, ?_, ?_⟩
  · intro e he name cfg options heq
    rcases buildTargetDirForScheme_trace_cases c s proj projectPath scheme configuration
      customOptions with h | ⟨n, h⟩ | h | h
    · rw [h] at he
      simp at he
    · rw [h] at he
      simp only [List.mem_singleton] at he
      subst he
      simp at heq
      exact heq.2.2.symm
    · rw [h] at he
      simp only [List.mem_singleton] at he
      subst he
      simp at heq
    · rw [h] at he
      simp only [List.mem_cons, List.mem_singleton, List.not_mem_nil, or_false] at he
      rcases he with rfl | rfl
      · simp at heq
      · simp at heq
        exact heq.2.2.symm
  · intro mainTarget hproj hmain
    simp only [buildTargetDirForScheme, hproj, if_true, hmain]
    split
    · rfl
    · split <;> rfl
  · intro workspace hproj hws hopen
    simp only [buildTargetDirForScheme, hproj, Bool.false_eq_true, if_false, hws, if_true, hopen]
    split
    · rfl
    · split <;> rfl
  · intro other
    simp only [exportArtifacts]
    split
    · rfl
    · exact exportTargets_customOptions c proj _ configuration simulatorPlatform deployDir
        customOptions other s _
  · simp only [exportArtifacts]
    split
    · simp
    · exact exportTargets_query c proj _ configuration simulatorPlatform deployDir
        customOptions s _

/-- The queries of C8 on the sample project: the query on the main target of
the project and the query on the scheme of a workspace carry the options of
the caller. -/
theorem customOptions_of_settings_queries_witness :
    (buildTargetDirForScheme sampleCollaborators sampleFiles sampleProj "/src/App.xcodeproj"
        "App" "Debug" ["-sdk", "iphonesimulator"]).trace
      = [.targetBuildSettings "App" "Debug" ["-sdk", "iphonesimulator"]] ∧
    (buildTargetDirForScheme sampleCollaborators sampleFiles sampleProj "/src/App.xcworkspace"
        "App" "Debug" ["-sdk", "iphonesimulator"]).trace
      = [.openWorkspace "/src/App.xcworkspace",
        .schemeBuildSettings "App" "Debug" ["-sdk", "iphonesimulator"]] :=
  ⟨(customOptions_of_settings_queries sampleCollaborators sampleFiles sampleProj
      "/src/App.xcodeproj" "App" "/dd/Build/Products/Debug-iphonesimulator" "Debug" "iOS"
      "/deploy" ["-sdk", "iphonesimulator"]).2.1 sampleApp (by decide) (by decide),
    (customOptions_of_settings_queries sampleCollaborators sampleFiles sampleProj
      "/src/App.xcworkspace" "App" "/dd/Build/Products/Debug-iphonesimulator" "Debug" "iOS"
      "/deploy" ["-sdk", "iphonesimulator"]).2.2.1 ⟨"/src/App.xcworkspace"⟩ (by decide)
      (by decide) (by decide)⟩

/-! ### Dependency closure -/

theorem sum_filter_mono (f : Target → Nat) (p q : Target → Bool) (l : List Target)
    (hqp : ∀ x, q x = true → p x = true) :
    ((l.filter q).map f).sum ≤ ((l.filter p).map f).sum := by
  induction l with
  | nil => simp
  | cons x xs ih =>
    cases hq : q x with
    | true =>
      have hp := hqp x hq
      simp only [List.filter_cons, hq, hp, if_true, List.map_cons, List.sum_cons]
      omega
    | false =>
      cases hp : p x with
      | true =>
        simp only [List.filter_cons, hq, hp, if_true, Bool.false_eq_true, if_false,
          List.map_cons, List.sum_cons]
        omega
      | false =>
        simp only [List.filter_cons, hq, hp, Bool.false_eq_true, if_false]
        exact ih

theorem sum_filter_remove (f : Target → Nat) (p q : Target → Bool) (l : List Target)
    (t : Target) (ht : t ∈ l) (hp : p t = true) (hq : q t = false)
    (hqp : ∀ x, q x = true → p x = true) :
    ((l.filter q).map f).sum + f t ≤ ((l.filter p).map f).sum := by
  induction l with
  | nil => simp at ht
  | cons x xs ih =>
    rcases List.mem_cons.mp ht with rfl | hmem
    · have := sum_filter_mono f p q xs hqp
      simp only [List.filter_cons, hq, hp, if_true, Bool.false_eq_true, if_false,
        List.map_cons, List.sum_cons]
      omega
    · have := ih hmem
      cases hqx : q x with
      | true =>
        have hpx := hqp x hqx
        simp only [List.filter_cons, hqx, hpx, if_true, List.map_cons, List.sum_cons]
        omega
      | false =>
        cases hpx : p x with
        | true =>
          simp only [List.filter_cons, hqx, hpx, if_true, Bool.false_eq_true, if_false,
            List.map_cons, List.sum_cons]
          omega
        | false =>
          simp only [List.filter_cons, hqx, hpx, Bool.false_eq_true, if_false]
          exact this

/-- The walk ends within the steps that the pending identifiers and the
targets not visited yet can need. -/
theorem closureWalk_terminates (targets : List Target) :
    ∀ (fuel : Nat) (pending : List String) (visited : List Target),
      pending.length + unvisitedSteps targets visited ≤ fuel →
      ∃ closure, closureWalk targets fuel pending visited = some closure := by
  intro fuel
  induction fuel with
  | zero =>
    intro pending visited h
    cases pending with
    | nil => exact ⟨_, rfl⟩
    | cons id rest => simp at h
  | succ fuel ih =>
    intro pending visited h
    cases pending with
    | nil => exact ⟨_, rfl⟩
    | cons id rest =>
      simp only [List.length_cons] at h
      simp only [closureWalk]
      split
      · exact ih rest visited (by omega)
      · rename_i hvis
        split
        · exact ih rest visited (by omega)
        · rename_i t hfind
          have hmem : t ∈ targets := List.mem_of_find?_eq_some hfind
          have hid : (t.ID == id) = true := by
            have := List.find?_some hfind
            simpa using this
          have hid2 : t.ID = id := by simpa using hid
          have hstep := sum_filter_remove (fun t => t.Dependencies.length + 1)
            (fun x => !visited.any (fun v => v.ID == x.ID))
            (fun x => !(t :: visited).any (fun v => v.ID == x.ID)) targets t hmem
            (by
              simp only [hid2]
              simpa using hvis)
            (by simp)
            (by
              intro x hx
              simp only [List.any_cons, Bool.not_or, Bool.and_eq_true] at hx
              exact hx.2)
          apply ih
          simp only [List.length_append]
          unfold unvisitedSteps at h ⊢
          simp only at hstep
          omega

/-- The walk records no identifier twice and keeps what was visited before it,
in the order of the visits. -/
theorem closureWalk_nodup (targets : List Target) :
    ∀ (fuel : Nat) (pending : List String) (visited closure : List Target),
      closureWalk targets fuel pending visited = some closure →
      (visited.map Target.ID).Nodup →
      (closure.map Target.ID).Nodup ∧ ∃ more, closure = visited.reverse ++ more := by
  intro fuel
  induction fuel with
  | zero =>
    intro pending visited closure h hnd
    cases pending with
    | nil =>
      simp only [closureWalk, Option.some.injEq] at h
      subst h
      refine ⟨?_, [], by simp⟩
      rw [List.map_reverse]
      exact List.nodup_reverse.mpr hnd
    | cons id rest => simp [closureWalk] at h
  | succ fuel ih =>
    intro pending visited closure h hnd
    cases pending with
    | nil =>
      simp only [closureWalk, Option.some.injEq] at h
      subst h
      refine ⟨?_, [], by simp⟩
      rw [List.map_reverse]
      exact List.nodup_reverse.mpr hnd
    | cons id rest =>
      simp only [closureWalk] at h
      split at h
      · exact ih rest visited closure h hnd
      · rename_i hvis
        split at h
        · exact ih rest visited closure h hnd
        · rename_i t hfind
          have hid : t.ID = id := by
            have := List.find?_some hfind
            simpa using this
          have hnew : ((t :: visited).map Target.ID).Nodup := by
            simp only [List.map_cons, List.nodup_cons]
            refine ⟨?_, hnd⟩
            intro hmem
            apply hvis
            obtain ⟨v, hv, hveq⟩ := List.mem_map.mp hmem
            simp only [List.any_eq_true, beq_iff_eq]
            exact ⟨v, hv, hveq.trans hid⟩
          obtain ⟨h1, more, h2⟩ := ih _ _ closure h hnew
          refine ⟨h1, t :: more, ?_⟩
          rw [h2]
          simp

/-- The walk records exactly the targets reached from the root, when it
starts from visited targets that are reached from the root and are the targets
their identifiers stand for, and from pending identifiers that are their
dependencies not looked at yet. -/
theorem closureWalk_reaches (targets : List Target) (root : Target) :
    ∀ (fuel : Nat) (pending : List String) (visited closure : List Target),
      closureWalk targets fuel pending visited = some closure →
      (∀ v ∈ visited, Reaches targets root v) →
      (∀ id ∈ pending, ∃ v ∈ visited, id ∈ v.Dependencies) →
      (∀ v ∈ visited, ∀ id ∈ v.Dependencies, ∀ b,
        targets.find? (fun t => t.ID == id) = some b →
          (∃ u ∈ visited, u.ID = id) ∨ id ∈ pending) →
      (∀ v ∈ visited, targets.find? (fun t => t.ID == v.ID) = some v) →
      (∀ v ∈ closure, Reaches targets root v) ∧
      (∀ v ∈ closure, ∀ id ∈ v.Dependencies, ∀ b,
        targets.find? (fun t => t.ID == id) = some b → ∃ u ∈ closure, u.ID = id) ∧
      (∀ v ∈ closure, targets.find? (fun t => t.ID == v.ID) = some v) := by
  have hdone : ∀ (visited closure : List Target), some visited.reverse = some closure →
      (∀ v ∈ visited, Reaches targets root v) →
      (∀ v ∈ visited, ∀ id ∈ v.Dependencies, ∀ b,
        targets.find? (fun t => t.ID == id) = some b →
          (∃ u ∈ visited, u.ID = id) ∨ id ∈ ([] : List String)) →
      (∀ v ∈ visited, targets.find? (fun t => t.ID == v.ID) = some v) →
      (∀ v ∈ closure, Reaches targets root v) ∧
      (∀ v ∈ closure, ∀ id ∈ v.Dependencies, ∀ b,
        targets.find? (fun t => t.ID == id) = some b → ∃ u ∈ closure, u.ID = id) ∧
      (∀ v ∈ closure, targets.find? (fun t => t.ID == v.ID) = some v) := by
    intro visited closure h h1 h3 h4
    simp only [Option.some.injEq] at h
    subst h
    refine ⟨fun v hv => h1 v (List.mem_reverse.mp hv), ?_,
      fun v hv => h4 v (List.mem_reverse.mp hv)⟩
    intro v hv id hid b hb
    rcases h3 v (List.mem_reverse.mp hv) id hid b hb with ⟨u, hu, hue⟩ | hn
    · exact ⟨u, List.mem_reverse.mpr hu, hue⟩
    · simp at hn
  intro fuel
  induction fuel with
  | zero =>
    intro pending visited closure h h1 h2 h3 h4
    cases pending with
    | nil => exact hdone visited closure (by simpa [closureWalk] using h) h1 h3 h4
    | cons id rest => simp [closureWalk] at h
  | succ fuel ih =>
    intro pending visited closure h h1 h2 h3 h4
    cases pending with
    | nil => exact hdone visited closure (by simpa [closureWalk] using h) h1 h3 h4
    | cons id rest =>
      simp only [closureWalk] at h
      split at h
      · rename_i hvis
        apply ih rest visited closure h h1
          (fun id1 hid1 => h2 id1 (List.mem_cons_of_mem _ hid1)) ?_ h4
        intro v hv id1 hid1 b hb
        rcases h3 v hv id1 hid1 b hb with hu | hp
        · exact Or.inl hu
        · rcases List.mem_cons.mp hp with rfl | hr
          · left
            simp only [List.any_eq_true, beq_iff_eq] at hvis
            exact hvis
          · exact Or.inr hr
      · rename_i hvis
        split at h
        · rename_i hfind
          apply ih rest visited closure h h1
            (fun id1 hid1 => h2 id1 (List.mem_cons_of_mem _ hid1)) ?_ h4
          intro v hv id1 hid1 b hb
          rcases h3 v hv id1 hid1 b hb with hu | hp
          · exact Or.inl hu
          · rcases List.mem_cons.mp hp with rfl | hr
            · rw [hfind] at hb
              exact absurd hb (by simp)
            · exact Or.inr hr
        · rename_i t hfind
          have hid : t.ID = id := by
            have := List.find?_some hfind
            simpa using this
          obtain ⟨v0, hv0, hdep0⟩ := h2 id (List.mem_cons_self _ _)
          have hreach : Reaches targets root t := Reaches.step (h1 v0 hv0) hdep0 hfind
          apply ih (t.Dependencies ++ rest) (t :: visited) closure h
          · intro v hv
            rcases List.mem_cons.mp hv with rfl | hv
            · exact hreach
            · exact h1 v hv
          · intro id1 hid1
            rcases List.mem_append.mp hid1 with hd | hr
            · exact ⟨t, List.mem_cons_self _ _, hd⟩
            · obtain ⟨v, hv, hvd⟩ := h2 id1 (List.mem_cons_of_mem _ hr)
              exact ⟨v, List.mem_cons_of_mem _ hv, hvd⟩
          · intro v hv id1 hid1 b hb
            rcases List.mem_cons.mp hv with rfl | hv
            · exact Or.inr (List.mem_append_left _ hid1)
            · rcases h3 v hv id1 hid1 b hb with ⟨u, hu, hue⟩ | hp
              · exact Or.inl ⟨u, List.mem_cons_of_mem _ hu, hue⟩
              · rcases List.mem_cons.mp hp with rfl | hr
                · exact Or.inl ⟨t, List.mem_cons_self _ _, hid⟩
                · exact Or.inr (List.mem_append_right _ hr)
          · intro v hv
            rcases List.mem_cons.mp hv with rfl | hv
            · rw [hid]
              exact hfind
            · exact h4 v hv

/-- The closure of a target that is the target of the project with its
identifier holds exactly the targets it reaches. -/
theorem dependencyClosure_reaches (proj : XcodeProj) (target : Target) (closure : List Target)
    (hroot : proj.Proj.Targets.find? (fun t => t.ID == target.ID) = some target)
    (hc : dependencyClosure proj target = some closure) :
    ∀ t, t ∈ closure ↔ Reaches proj.Proj.Targets target t := by
  obtain ⟨h1, h2, h3⟩ := closureWalk_reaches proj.Proj.Targets target _ _ [target] closure hc
    (by
      intro v hv
      rw [List.mem_singleton.mp hv]
      exact Reaches.root)
    (by
      intro id hid
      exact ⟨target, List.mem_singleton.mpr rfl, hid⟩)
    (by
      intro v hv id hid b _
      rw [List.mem_singleton.mp hv] at hid
      exact Or.inr hid)
    (by
      intro v hv
      rw [List.mem_singleton.mp hv]
      exact hroot)
  obtain ⟨_, more, hmore⟩ := closureWalk_nodup proj.Proj.Targets _ _ [target] closure hc
    (by simp)
  intro t
  constructor
  · exact h1 t
  · intro hr
    induction hr with
    | root =>
      rw [hmore]
      simp
    | step _ hid hfind ih =>
      obtain ⟨u, hu, hue⟩ := h2 _ ih _ hid _ hfind
      have := h3 u hu
      rw [hue, hfind] at this
      rw [Option.some.inj this]
      exact hu

theorem unvisitedSteps_le (targets visited : List Target) :
    unvisitedSteps targets visited ≤ (targets.map (fun t => t.Dependencies.length + 1)).sum := by
  have := sum_filter_mono (fun t : Target => t.Dependencies.length + 1) (fun _ => true)
    (fun t => !visited.any (fun v => v.ID == t.ID)) targets (fun _ _ => rfl)
  simpa [unvisitedSteps] using this

/-- The closure of a target is computed within its step budget; it starts
with the target and holds no identifier twice. -/
theorem dependencyClosure_spec (proj : XcodeProj) (target : Target) :
    ∃ dependents, dependencyClosure proj target = some (target :: dependents) ∧
      ((target :: dependents).map Target.ID).Nodup := by
  have hfuel : target.Dependencies.length + unvisitedSteps proj.Proj.Targets [target]
      ≤ closureSteps proj.Proj.Targets target.Dependencies := by
    have := unvisitedSteps_le proj.Proj.Targets [target]
    unfold closureSteps
    omega
  obtain ⟨closure, hc⟩ := closureWalk_terminates proj.Proj.Targets _ _ [target] hfuel
  obtain ⟨hnd, more, hmore⟩ := closureWalk_nodup proj.Proj.Targets _ _ [target] closure hc
    (by simp)
  refine ⟨more, ?_, ?_⟩
  · unfold dependencyClosure
    rw [hc, hmore]
    rfl
  · rw [hmore] at hnd
    simpa using hnd

/-- The main target of a scheme is the target of the project that its
identifier stands for. -/
theorem mainTargetOfScheme_find (proj : XcodeProj) (scheme : String) (mainTarget : Target)
    (hmain : mainTargetOfScheme proj scheme = .ok mainTarget) :
    proj.Proj.Targets.find? (fun t => t.ID == mainTarget.ID) = some mainTarget := by
  simp only [mainTargetOfScheme] at hmain
  split at hmain
  · simp at hmain
  · rename_i sch _
    split at hmain
    · rename_i t hfind
      simp only [Except.ok.injEq] at hmain
      subst hmain
      have hid : t.ID = mainBlueprintIdentifier sch := by
        have := List.find?_some hfind
        simpa using this
      rw [hid]
      exact hfind
    · simp at hmain

/-- C6: with `DependentTargets` the dependency closure of the spec (a
depth-first walk that tracks the visited identifiers), the sequence of targets
that `exportArtifacts` iterates over is computed within the step budget of the
walk for every project and main target of a scheme, cyclic dependencies
included: it is the closure, it starts with the main target, no target
identifier occurs in it twice, and its members are exactly the targets the
main target reaches through declared dependencies. -/
theorem exportSequence_each_target_once {σ : Type} (c : Collaborators σ) (proj : XcodeProj)
    (scheme : String) (mainTarget : Target)
    (hmain : mainTargetOfScheme proj scheme = .ok mainTarget)
    (hdep : c.dependentTargets = DependentTargets proj) :
    dependencyClosure proj mainTarget = some (exportSequence c mainTarget) ∧
      (exportSequence c mainTarget).head? = some mainTarget ∧
      ((exportSequence c mainTarget).map Target.ID).Nodup ∧
      ∀ t, t ∈ exportSequence c mainTarget ↔ Reaches proj.Proj.Targets mainTarget t := by
  obtain ⟨dependents, hc, hnd⟩ := dependencyClosure_spec proj mainTarget
  have hseq : exportSequence c mainTarget = mainTarget :: dependents := by
    simp only [exportSequence, hdep, DependentTargets, hc, List.tail_cons]
  rw [hseq]
  exact ⟨hc, rfl, hnd, dependencyClosure_reaches proj mainTarget _
    (mainTargetOfScheme_find proj scheme mainTarget hmain) hc⟩

/-- The sequence of C6 in the cyclic project: each of the three targets once,
the main target first. -/
theorem exportSequence_each_target_once_witness :
    (exportSequence cyclicCollaborators ⟨"1", "One", ⟨"One.app"⟩, ["2", "3"]⟩).map Target.ID
        = ["1", "2", "3"] ∧
      ((exportSequence cyclicCollaborators ⟨"1", "One", ⟨"One.app"⟩, ["2", "3"]⟩).map
        Target.ID).Nodup :=
  ⟨by decide,
    (exportSequence_each_target_once cyclicCollaborators cyclicProj "One"
      ⟨"1", "One", ⟨"One.app"⟩, ["2", "3"]⟩ (by decide) rfl).2.2.1⟩

/-! ### The build root as a directory -/

theorem splitSlash_ne_nil (l : List Char) : splitSlash l ≠ [] := by
  cases l with
  | nil => simp [splitSlash]
  | cons c cs =>
    simp only [splitSlash]
    split
    · simp
    · split <;> simp

theorem splitSlash_append (a b : List Char) :
    splitSlash (a ++ '/' :: b) = splitSlash a ++ splitSlash b := by
  induction a with
  | nil => rfl
  | cons c cs ih =>
    show splitSlash (c :: (cs ++ '/' :: b)) = splitSlash (c :: cs) ++ splitSlash b
    rw [splitSlash, splitSlash, ih]
    by_cases hc : c = '/'
    · rw [if_pos hc, if_pos hc]
      rfl
    · rw [if_neg hc, if_neg hc]
      cases hs : splitSlash cs with
      | nil => exact absurd hs (splitSlash_ne_nil cs)
      | cons h t => rfl

theorem joinSlash_append_singleton (l : List (List Char)) (e : List Char) (hl : l ≠ []) :
    joinSlash (l ++ [e]) = joinSlash l ++ '/' :: e := by
  induction l with
  | nil => exact absurd rfl hl
  | cons x xs ih =>
    cases xs with
    | nil => rfl
    | cons y ys =>
      have ih1 := ih (by simp)
      show x ++ '/' :: joinSlash ((y :: ys) ++ [e]) = (x ++ '/' :: joinSlash (y :: ys)) ++ '/' :: e
      rw [ih1]
      simp

/-- Joining a plain element to a cleaned directory followed by a slash
appends the element to the directory. -/
theorem cleanChars_dir (d e : List Char) (hsplit : splitSlash e = [e])
    (hstep : ∀ rooted kept, cleanStep rooted kept e = e :: kept)
    (hd : cleanChars d = d) (hdot : d ≠ ['.']) (hroot : d ≠ ['/']) :
    cleanChars (d ++ '/' :: '/' :: e) = d ++ '/' :: e := by
  have hne : d ≠ [] := by
    intro h
    rw [h] at hd
    exact absurd hd (by decide)
  have hhead : (d ++ '/' :: '/' :: e).head? = d.head? := by
    cases d with
    | nil => exact absurd rfl hne
    | cons c cs => rfl
  have hstep0 : ∀ rooted kept, cleanStep rooted kept [] = kept := by
    intro rooted kept
    simp [cleanStep]
  have hsplit2 : splitSlash ('/' :: e) = [[], e] := by
    rw [splitSlash, if_pos rfl, hsplit]
  unfold cleanChars at hd ⊢
  rw [splitSlash_append, hsplit2]
  simp only [hhead, List.foldl_append, List.foldl_cons, List.foldl_nil, hstep, hstep0,
    List.reverse_cons, List.isEmpty_cons, Bool.false_eq_true, if_false] at hd ⊢
  generalize (splitSlash d).foldl (cleanStep (d.head? == some '/')) [] = kept at hd ⊢
  have hkept : kept.reverse ≠ [] := by
    intro hk
    rw [hk] at hd
    have hk2 : kept = [] := by simpa using hk
    simp only [joinSlash, hk2, List.isEmpty_nil, if_true] at hd
    split at hd
    · exact hroot hd.symm
    · exact hdot hd.symm
  rw [joinSlash_append_singleton _ _ hkept]
  have hkn : kept.isEmpty = false := by
    cases kept with
    | nil => simp at hkept
    | cons x xs => rfl
  simp only [hkn, Bool.false_eq_true, if_false] at hd
  split
  · rename_i hr
    rw [if_pos hr] at hd
    rw [← List.cons_append, hd]
  · rename_i hr
    rw [if_neg hr] at hd
    rw [hd]

theorem splitSlash_Build : splitSlash "Build".data = ["Build".data] := by decide

theorem cleanStep_Build (rooted : Bool) (kept : List (List Char)) :
    cleanStep rooted kept "Build".data = "Build".data :: kept := by
  simp [cleanStep]

theorem Join_Build_of_ne (p0 : String) (h : p0.data ≠ []) :
    Join [p0, "Build"] = String.mk (cleanChars (p0.data ++ '/' :: "Build".data)) := by
  have he : p0.data.isEmpty = false := by
    cases hp : p0.data with
    | nil => exact absurd hp h
    | cons c cs => rfl
  simp [Join, List.dropWhile, he, joinElems]

theorem Join_Build_of_empty : Join ["", "Build"] = "Build" := by decide

theorem schemeDirOf_of_split {raw p0 p1 : String} (h : split raw "Build/" = [p0, p1]) :
    schemeDirOf raw = Join [p0, "Build"] := by
  simp [schemeDirOf, h]

/-- On a cleaned path in which the marker starts a whole segment (the first
part of the split is empty, is `/`, or is a directory `d` followed by a slash
with `Clean(d) = d` other than `.` and `/`), the build root is the first part
followed by `Build`, the ancestor directory of the raw path that ends at that
segment, and the raw string is the root, a slash and the second part. -/
theorem schemeDirOf_whole_segment (raw p0 p1 : String)
    (h : split raw "Build/" = [p0, p1])
    (hcase : p0 = "" ∨ p0 = "/" ∨ ∃ d, p0 = d ++ "/" ∧ Clean d = d ∧ d ≠ "." ∧ d ≠ "/") :
    schemeDirOf raw = p0 ++ "Build" ∧ raw = schemeDirOf raw ++ "/" ++ p1 := by
  have hraw := split_pair_append h
  have hroot := schemeDirOf_of_split h
  have hmarker : ∀ a b : String, a ++ "Build/" ++ b = a ++ "Build" ++ "/" ++ b := by
    intro a b
    apply String.ext
    simp [String.data_append]
  have hjoin : Join [p0, "Build"] = p0 ++ "Build" := by
    rcases hcase with rfl | rfl | ⟨d, rfl, hclean, hdot, hslash⟩
    · decide
    · decide
    · have hd : cleanChars d.data = d.data := congrArg String.data hclean
      have hdot1 : d.data ≠ ['.'] := fun e => hdot (String.ext e)
      have hslash1 : d.data ≠ ['/'] := fun e => hslash (String.ext e)
      have hne : (d ++ "/").data ≠ [] := by simp [String.data_append]
      rw [Join_Build_of_ne _ hne]
      apply String.ext
      have := cleanChars_dir d.data "Build".data splitSlash_Build cleanStep_Build hd hdot1
        hslash1
      simp only [String.data_append]
      simpa using this
  rw [hroot, hjoin]
  refine ⟨rfl, ?_⟩
  rw [← hmarker]
  exact hraw

/-- C10: on the raw build directory `/a/MyBuild/Products` the split on
`Build/` yields the two parts `/a/My` and `Products`, because the marker ends
the segment `MyBuild`, and the root computed by `exportArtifacts` is
`/a/My/Build`. The raw path has no segment `Build`, the root is no prefix of
the raw string, and the raw string is not the root, a slash and the second
part. -/
theorem schemeDirOf_splits_inside_segment :
    split "/a/MyBuild/Products" "Build/" = ["/a/My", "Products"] ∧
      schemeDirOf "/a/MyBuild/Products" = "/a/My/Build" ∧
      "Build".data ∉ splitSlash "/a/MyBuild/Products".data ∧
      ¬ (schemeDirOf "/a/MyBuild/Products").data <+: "/a/MyBuild/Products".data ∧
      "/a/MyBuild/Products" ≠ schemeDirOf "/a/MyBuild/Products" ++ "/" ++ "Products" := by
  decide

/-- C9: with the OS version `latest`, `simulatorDestinationID` makes the
latest-simulator lookup with the platform and the device and no other call;
with any other OS version it makes the exact lookup with the platform, a
blank and the version, and no other call. It returns the ID of the info the
lookup returned, and an error exactly when the lookup returned one. -/
theorem simulatorDestinationID_lookup {σ : Type} (c : Collaborators σ) (s : σ)
    (simulatorOsVersion simulatorPlatform simulatorDevice : String) :
    (simulatorOsVersion = "latest" →
      (simulatorDestinationID c s simulatorOsVersion simulatorPlatform simulatorDevice).trace
        = [.getLatestSimulatorInfoAndVersion simulatorPlatform simulatorDevice] ∧
      (∀ info version,
        c.getLatestSimulatorInfoAndVersion s simulatorPlatform simulatorDevice
          = .ok (info, version) →
        (simulatorDestinationID c s simulatorOsVersion simulatorPlatform simulatorDevice).result
          = .ok info.ID) ∧
      (∀ err,
        c.getLatestSimulatorInfoAndVersion s simulatorPlatform simulatorDevice = .error err →
        (simulatorDestinationID c s simulatorOsVersion simulatorPlatform simulatorDevice).result
          = .error (.latestSimulatorInfo err))) ∧
    (simulatorOsVersion ≠ "latest" →
      (simulatorDestinationID c s simulatorOsVersion simulatorPlatform simulatorDevice).trace
        = [.getSimulatorInfo (simulatorPlatform ++ " " ++ simulatorOsVersion) simulatorDevice] ∧
      (∀ info,
        c.getSimulatorInfo s (simulatorPlatform ++ " " ++ simulatorOsVersion) simulatorDevice
          = .ok info →
        (simulatorDestinationID c s simulatorOsVersion simulatorPlatform simulatorDevice).result
          = .ok info.ID) ∧
      (∀ err,
        c.getSimulatorInfo s (simulatorPlatform ++ " " ++ simulatorOsVersion) simulatorDevice
          = .error err →
        (simulatorDestinationID c s simulatorOsVersion simulatorPlatform simulatorDevice).result
          = .error (.simulatorInfo (simulatorPlatform ++ simulatorOsVersion)
              simulatorDevice err))) := by
  constructor
  · intro h
    subst h
    refine ⟨?_, ?_, ?_⟩
    · simp only [simulatorDestinationID, beq_self_eq_true, if_true]
      split <;> rfl
    · intro info version hl
      simp only [simulatorDestinationID, beq_self_eq_true, if_true, hl]
    · intro err hl
      simp only [simulatorDestinationID, beq_self_eq_true, if_true, hl]
  · intro h
    have hb : (simulatorOsVersion == "latest") = false := by simpa using h
    refine ⟨?_, ?_, ?_⟩
    · simp only [simulatorDestinationID, hb, Bool.false_eq_true, if_false]
      split <;> rfl
    · intro info hl
      simp [simulatorDestinationID, hb, hl]
    · intro err hl
      simp [simulatorDestinationID, hb, hl]

/-- The lookups of C9 on the sample simulators: `latest` resolves through the
latest lookup alone, `14.4` through the exact lookup of `iOS 14.4` alone. -/
theorem simulatorDestinationID_lookup_witness :
    ((simulatorDestinationID sampleCollaborators [] "latest" "iOS" "iPhone 11").trace
        = [.getLatestSimulatorInfoAndVersion "iOS" "iPhone 11"] ∧
      (simulatorDestinationID sampleCollaborators [] "latest" "iOS" "iPhone 11").result
        = .ok "ID-15") ∧
    ((simulatorDestinationID sampleCollaborators [] "14.4" "iOS" "iPhone 11").trace
        = [.getSimulatorInfo "iOS 14.4" "iPhone 11"] ∧
      (simulatorDestinationID sampleCollaborators [] "14.4" "iOS" "iPhone 11").result
        = .ok "ID-14") :=
  ⟨⟨((simulatorDestinationID_lookup sampleCollaborators [] "latest" "iOS" "iPhone 11").1 rfl).1,
     ((simulatorDestinationID_lookup sampleCollaborators [] "latest" "iOS" "iPhone 11").1 rfl).2.1
        ⟨"ID-15", "iPhone 11"⟩ "15.0" (by decide)⟩,
   ⟨((simulatorDestinationID_lookup sampleCollaborators [] "14.4" "iOS" "iPhone 11").2
        (by decide)).1,
     ((simulatorDestinationID_lookup sampleCollaborators [] "14.4" "iOS" "iPhone 11").2
        (by decide)).2.1 ⟨"ID-14", "iPhone 11"⟩ (by decide)⟩⟩

/-! ### The path functions on concrete paths -/

/-- The string and path functions of the Go library on concrete inputs. -/
theorem path_functions_examples :
    split "/a/b/Build/Products/Debug" "Build/" = ["/a/b/", "Products/Debug"] ∧
    split "Build/" "Build/" = ["", ""] ∧
    Join ["/a/b/", "Build"] = "/a/b/Build" ∧
    Join ["/a/My", "Build"] = "/a/My/Build" ∧
    Join ["a/../../b/./c//", "", "d"] = "../b/c/d" ∧
    Join ["", ""] = "" ∧
    Dir "/x/y/App.xcodeproj" = "/x/y" ∧
    Dir "App.xcodeproj" = "." ∧
    Clean "/../a/b/../.." = "/" ∧
    Ext "/x/y.z/App.xcodeproj" = ".xcodeproj" ∧
    Ext "/x/y.z/App" = "" ∧
    contains "/Platforms/WatchOS.platform/SDK" "WatchOS.platform" = true ∧
    hasSuffix "App.app" ".app" = true ∧
    hasSuffix "libLib.a" ".app" = false := by
  decide

end XcodeBuildForSimulator
